import Mathlib

/-!
Shallow embedding of the Sankhya mirror-synchronisation services
(`src/lib/sync-excecao-preco-service.ts` and the financial variant in
`src/unnamed/part_000`): the value sanitizers, the positional field
decoder, and the reconcile-and-upsert engine, together with proofs about
the specification's claims.

JavaScript numbers are modelled as rationals, strings as `String` (with
the character-level operations re-implemented structurally so that they
evaluate inside the kernel), the Oracle mirror table as a list of rows,
and every external effect (token provider, transport, connection pool,
statement failures) as an explicit environment value.
-/

/-! ## JavaScript value coercions -/

/-- JS truthiness coercion `v || null` on a `number | undefined` bind value:
`undefined`, `null` and `0` are falsy and become SQL `NULL`. -/
def jsOrNullNum : Option ℚ → Option ℚ
  | none => none
  | some q => if q = 0 then none else some q

/-- JS truthiness coercion `s || null` on a `string | undefined` bind value:
`undefined`, `null` and `""` are falsy and become SQL `NULL`. -/
def jsOrNullStr : Option String → Option String
  | none => none
  | some s => if s = "" then none else some s

/-! ## Character-level string operations

The services only ever split on `' '`, `'/'` and `':'` and trim
whitespace, so the JavaScript string methods are modelled on the
underlying character lists. -/

/-- The whitespace characters `String.prototype.trim` can meet here. -/
def isJsSpace (c : Char) : Bool :=
  c = ' ' || c = '\t' || c = '\n' || c = '\r'

/-- `String.prototype.trim` on the character list. -/
def trimChars (cs : List Char) : List Char :=
  ((cs.dropWhile isJsSpace).reverse.dropWhile isJsSpace).reverse

/-- `String.prototype.split(sep)` for a one-character separator, with the
JavaScript corner cases: `"".split(sep)` is `[""]` and separators at the
ends produce empty fragments. -/
def splitChars (sep : Char) : List Char → List (List Char)
  | [] => [[]]
  | c :: cs =>
    if c = sep then [] :: splitChars sep cs
    else
      match splitChars sep cs with
      | [] => [[c]]
      | g :: gs => (c :: g) :: gs

/-- The decimal digit character for `d < 10`. -/
def digitChar (d : ℕ) : Char := Char.ofNat (48 + d)

/-- Numeric value of a decimal digit character. -/
def digitVal (c : Char) : ℕ := c.toNat - 48

/-- Base-10 rendering (most significant digit first); the first argument is
fuel bounding the recursion depth, so `natToCharsAux n n` renders `n`
completely. -/
def natToCharsAux : ℕ → ℕ → List Char
  | 0, _ => []
  | _ + 1, 0 => []
  | fuel + 1, n + 1 =>
    natToCharsAux fuel ((n + 1) / 10) ++ [digitChar ((n + 1) % 10)]

/-- Decimal rendering of a natural number, as JavaScript `String(n)`. -/
def natToChars (n : ℕ) : List Char :=
  if n = 0 then ['0'] else natToCharsAux n n

/-- The digit-prefix part of JavaScript `parseInt` (radix 10): the value of
the longest leading run of decimal digits, `none` (`NaN`) when there is
none. -/
def parseIntDigits (cs : List Char) : Option ℕ :=
  let ds := cs.takeWhile Char.isDigit
  if ds.isEmpty then none
  else some (ds.foldl (fun a c => 10 * a + digitVal c) 0)

/-- JavaScript `parseInt(s)` (radix 10) on the split fragments this code
feeds it: an optional sign followed by a digit prefix; `none` models `NaN`.
(`parseInt` also skips leading whitespace, which cannot occur in a fragment
produced by splitting on whitespace.) -/
def jsParseInt : List Char → Option ℤ
  | [] => none
  | c :: cs =>
    if c = '-' then (parseIntDigits cs).map (fun n => -(n : ℤ))
    else if c = '+' then (parseIntDigits cs).map (fun n => (n : ℤ))
    else (parseIntDigits (c :: cs)).map (fun n => (n : ℤ))

/-! ## `parseDataSankhya` (part_000 lines 133-167) -/

/-- The six components handed to `new Date(y, m, d, h, mi, s)`.  At the
in-range component values the claims exercise, the JavaScript `Date`
stores exactly these components (out-of-range components would be
renormalised by `Date`, e.g. month 12 into January of the next year; such
inputs are outside every claim).  The constructor's two-digit-year rule is
modelled in `jsDateYear`. -/
structure JSDate where
  year : ℤ
  monthIndex : ℤ
  day : ℤ
  hours : ℤ
  minutes : ℤ
  seconds : ℤ
deriving DecidableEq

/-- `new Date(year, ...)` reads a year argument between 0 and 99 as
`1900 + year`. -/
def jsDateYear (y : ℤ) : ℤ := if 0 ≤ y ∧ y ≤ 99 then y + 1900 else y

/-- `new Date(y, m, d, h, mi, s)` followed by the
`isNaN(date.getTime())` guard of the source: any `NaN` component (a failed
`parseInt`) invalidates the date. -/
def mkJSDate :
    Option ℤ → Option ℤ → Option ℤ → Option ℤ → Option ℤ → Option ℤ → Option JSDate
  | some y, some m, some d, some h, some mi, some s =>
    some ⟨jsDateYear y, m, d, h, mi, s⟩
  | _, _, _, _, _, _ => none

/-- `frag || dflt` on an optional split fragment: `undefined` (index out of
range) and the empty fragment are falsy. -/
def jsOrChars (o : Option (List Char)) (dflt : List Char) : List Char :=
  match o with
  | none => dflt
  | some cs => if cs.isEmpty then dflt else cs

/-- JS falsiness of an optional split fragment (`!dia`-style tests). -/
def falsyChars (o : Option (List Char)) : Bool :=
  match o with
  | none => true
  | some cs => cs.isEmpty

/-- `parseDataSankhya` (part_000 lines 133-167): reject a missing or empty
string, trim, split on `' '`, split the date part on `'/'` (rejecting a
falsy day, month or year fragment), split the time part (defaulted to
`'00:00:00'`) on `':'` with each piece defaulted to `'0'`, and build the
`Date`; a `NaN` anywhere yields `null`.  The `try`/`catch` of the source
never fires in this total model, so no input throws.  `parseDataChars` is
the body after the `if (!dataStr)` guard, on the character list. -/
def parseDataChars (cs : List Char) : Option JSDate :=
  let partes := splitChars ' ' (trimChars cs)
  let dataParte := partes.headD []
  let horaParte := jsOrChars partes[1]? ['0', '0', ':', '0', '0', ':', '0', '0']
  let dp := splitChars '/' dataParte
  if falsyChars dp[0]? || falsyChars dp[1]? || falsyChars dp[2]? then none
  else
    let hp := splitChars ':' horaParte
    mkJSDate (jsParseInt (dp[2]?.getD []))
      ((jsParseInt (dp[1]?.getD [])).map (· - 1))
      (jsParseInt (dp[0]?.getD []))
      (jsParseInt (jsOrChars hp[0]? ['0']))
      (jsParseInt (jsOrChars hp[1]? ['0']))
      (jsParseInt (jsOrChars hp[2]? ['0']))

/-- `parseDataSankhya` itself: the `if (!dataStr)` guard (`undefined` and
the empty string are falsy), then the character-level body. -/
def parseDataSankhya (dataStr : Option String) : Option JSDate :=
  match dataStr with
  | none => none
  | some s =>
    if s.data.isEmpty then none
    else parseDataChars s.data

/-! ### Renderers for date-time strings

These build the `DD/MM/YYYY` and `DD/MM/YYYY HH:MM:SS` inputs the claims
quantify over (zero-padded decimal components). -/

/-- Two-digit zero-padded decimal rendering. -/
def pad2 (n : ℕ) : List Char :=
  if n < 10 then ['0', digitChar n] else natToChars n

/-- Four-digit zero-padded decimal rendering. -/
def pad4 (n : ℕ) : List Char :=
  if n < 10 then ['0', '0', '0', digitChar n]
  else if n < 100 then '0' :: '0' :: natToChars n
  else if n < 1000 then '0' :: natToChars n
  else natToChars n

/-- The `DD/MM/YYYY` character string. -/
def renderDate (d m y : ℕ) : List Char :=
  pad2 d ++ '/' :: (pad2 m ++ '/' :: pad4 y)

/-- The `HH:MM:SS` character string. -/
def renderTime (h mi s : ℕ) : List Char :=
  pad2 h ++ ':' :: (pad2 mi ++ ':' :: pad2 s)

/-- The `DD/MM/YYYY HH:MM:SS` character string. -/
def renderDateTime (d m y h mi s : ℕ) : List Char :=
  renderDate d m y ++ ' ' :: renderTime h mi s

/-- Gregorian leap-year test (used only to restrict date claims to valid
calendar dates, where the JavaScript `Date` renormalisation — not part of
the model — is the identity). -/
def isLeapYear (y : ℕ) : Bool :=
  (y % 4 = 0 && !(y % 100 = 0)) || (y % 400 = 0)

/-- Days in month `m` (1-12) of year `y`; same purpose as `isLeapYear`. -/
def daysInMonth (m y : ℕ) : ℕ :=
  if m = 2 then (if isLeapYear y then 29 else 28)
  else if m = 4 ∨ m = 6 ∨ m = 9 ∨ m = 11 then 30
  else 31

/-! ## `validarValorNumerico` (part_000 lines 172-186) -/

/-- The value actually reaching `validarValorNumerico`: the
`undefined`/`null` guard and the `isNaN(Number(valor))` guard are separate
source branches, so the model keeps them separate. -/
inductive NumVal where
  | undef
  | nullV
  | nan
  | num (q : ℚ)
deriving DecidableEq

/-- `validarValorNumerico` (part_000 lines 172-186): `null` on
`undefined`/`null`/`NaN`; otherwise clamp to the `NUMBER(maxDigits,2)`
range `±(10^(maxDigits-2) - 0.01)` preserving the sign, and return
in-range values unchanged. -/
def validarValorNumerico (valor : NumVal) (maxDigits : ℕ := 15) : Option ℚ :=
  match valor with
  | .undef => none
  | .nullV => none
  | .nan => none
  | .num v =>
    let maxValue : ℚ := 10 ^ (maxDigits - 2) - 1 / 100
    if |v| > maxValue then some (if v > 0 then maxValue else -maxValue)
    else some v

/-! ## The positional field decoder (`buscarExcecaoPrecoSankhya` lines
81-95, `buscarFinanceiroSankhya` lines 86-100) -/

/-- A raw entity value as it arrives from the transport: the positional
key `f<i>` holds an object `{ "$": value }`.  A JavaScript object is
always truthy, so the decoder's `if (rawEntity[fieldKey])` test amounts
to presence of the key. -/
structure WrappedVal where
  dollar : String
deriving DecidableEq

/-- A raw entity: the positional keys (`"f0"`, `"f1"`, ...) of a
JavaScript object, with their wrapped values. -/
def RawEntity := List (String × WrappedVal)

/-- The positional key `` `f${i}` ``. -/
def fKey (i : ℕ) : String := "f" ++ String.mk (natToChars i)

/-- JavaScript property read `o[k]` on an assoc-list model of an object
(keys are unique, so the first match is the value). -/
def objGet : List (String × String) → String → Option String
  | [], _ => none
  | (k', v) :: rest, k => if k' = k then some v else objGet rest k

/-- JavaScript property read `rawEntity[fieldKey]` on the raw entity. -/
def rawGet : RawEntity → String → Option WrappedVal
  | [], _ => none
  | (k', w) :: rest, k => if k' = k then some w else rawGet rest k

/-- JavaScript property assignment `o[k] = v` on an assoc-list model of an
object: overwrite the (unique) existing entry for `k` in place, otherwise
append the new property at the end. -/
def objSet : List (String × String) → String → String → List (String × String)
  | [], k, v => [(k, v)]
  | (k', v') :: rest, k, v =>
    if k' = k then (k, v) :: rest else (k', v') :: objSet rest k v

/-- The `for (let i = 0; i < fieldNames.length; i++)` body of the decoder,
over an explicit list of indices. -/
def decodeLoop (fieldNames : List String) (rawEntity : RawEntity) :
    List ℕ → List (String × String) → List (String × String)
  | [], o => o
  | i :: is, o =>
    match rawGet rawEntity (fKey i) with
    | some w => decodeLoop fieldNames rawEntity is (objSet o (fieldNames.getD i "") w.dollar)
    | none => decodeLoop fieldNames rawEntity is o

/-- Decode one raw entity against the metadata field-name list (the
`entityArray.map` body of `buscar*Sankhya`). -/
def decodeEntity (fieldNames : List String) (rawEntity : RawEntity) :
    List (String × String) :=
  decodeLoop fieldNames rawEntity (List.range fieldNames.length) []

/-- `entities.entity` may be a single object or an array; the source
normalises with `Array.isArray(entities.entity) ? entities.entity :
[entities.entity]`. -/
inductive EntityPayload where
  | single (e : RawEntity)
  | collection (es : List RawEntity)

/-- The `entityArray` normalisation. -/
def entityArrayOf : EntityPayload → List RawEntity
  | .single e => [e]
  | .collection es => es

/-- Decode a transport payload: normalise to an array, then decode each
raw entity. -/
def decodeEntities (fieldNames : List String) (p : EntityPayload) :
    List (List (String × String)) :=
  (entityArrayOf p).map (decodeEntity fieldNames)

/-! ## The mirror table and the reconcile-and-upsert engine

The two services are the same engine instantiated at two record types
(spec section 9 makes the duplication explicit), so the engine is
modelled once, parameterised by the record type `α`, the business-key
projection `keyOf` and the bound-column projection `payloadOf`; the two
instantiations below recover the source functions. -/

/-- A mirror-table row (`AS_EXCECAO_PRECO` / `AS_FINANCEIRO`): system
identifier, business key, the mirrored business columns, and the three
control columns.  `SANKHYA_ATUAL = true` models `'S'`; timestamps are
abstract instants. -/
structure MirrorRow (K β : Type) where
  ID_SISTEMA : ℕ
  key : K
  payload : β
  SANKHYA_ATUAL : Bool
  DT_ULT_CARGA : ℕ
  DT_CRIACAO : ℕ
deriving DecidableEq

variable {K β α : Type}

/-- `marcarTodosComoNaoAtuais` (service lines 109-123): `UPDATE ... SET
SANKHYA_ATUAL = 'N', DT_ULT_CARGA = CURRENT_TIMESTAMP WHERE ID_SISTEMA =
:idSistema AND SANKHYA_ATUAL = 'S'`, returning the affected-row count. -/
def marcarTodosComoNaoAtuais (table : List (MirrorRow K β)) (idSistema now : ℕ) :
    List (MirrorRow K β) × ℕ :=
  ((table.map fun r =>
      if r.ID_SISTEMA = idSistema ∧ r.SANKHYA_ATUAL = true then
        { r with SANKHYA_ATUAL := false, DT_ULT_CARGA := now }
      else r),
   table.countP fun r => decide (r.ID_SISTEMA = idSistema ∧ r.SANKHYA_ATUAL = true))

/-- One iteration of the upsert loop on its non-throwing path: the
`SELECT COUNT(*)` existence probe on (ID_SISTEMA, business key), then
either the `UPDATE` (rebind every business column, `SANKHYA_ATUAL = 'S'`,
fresh `DT_ULT_CARGA`) or the `INSERT` (which also sets `DT_CRIACAO`).
Returns the new table and whether the record counted as an update. -/
def upsertOne [DecidableEq K] (keyOf : α → K) (payloadOf : α → β)
    (table : List (MirrorRow K β)) (idSistema : ℕ) (rec : α) (now : ℕ) :
    List (MirrorRow K β) × Bool :=
  if table.any (fun r => decide (r.ID_SISTEMA = idSistema ∧ r.key = keyOf rec)) then
    ((table.map fun r =>
        if r.ID_SISTEMA = idSistema ∧ r.key = keyOf rec then
          { r with payload := payloadOf rec, SANKHYA_ATUAL := true, DT_ULT_CARGA := now }
        else r),
     true)
  else
    (table ++ [⟨idSistema, keyOf rec, payloadOf rec, true, now, now⟩], false)

/-- The `for ... { try { ... } catch }` upsert loop (`upsertExcecaoPreco`
lines 128-205, `upsertFinanceiro` lines 191-297).  `rowFails i = true`
means the statements for the `i`-th record throw; a throwing Oracle
statement has no effect and the `catch` swallows the error, so a failing
record leaves the table and both counters untouched and the loop
continues.  Returns (table, inseridos, atualizados). -/
def upsertRegistros [DecidableEq K] (keyOf : α → K) (payloadOf : α → β)
    (rowFails : ℕ → Bool) (idSistema now : ℕ) :
    List (MirrorRow K β) → ℕ → List α → List (MirrorRow K β) × ℕ × ℕ
  | t, _, [] => (t, 0, 0)
  | t, i, rec :: rest =>
    if rowFails i then upsertRegistros keyOf payloadOf rowFails idSistema now t (i + 1) rest
    else
      let p := upsertOne keyOf payloadOf t idSistema rec now
      let q := upsertRegistros keyOf payloadOf rowFails idSistema now p.1 (i + 1) rest
      (q.1, (if p.2 then q.2.1 else q.2.1 + 1), (if p.2 then q.2.2 + 1 else q.2.2))

/-- The outcome of every external interaction of one per-company run:
`tokenResult` for `obterToken(idSistema, true)`, `fetchResult` for the
remote fetch-and-decode (already carrying the `Erro ao buscar ...`
message wrapping of the source on failure), `connResult` for
`getOracleConnection()`, `staleError`/`commitError` for a throwing
stale-marking or `commit()` statement, and `rowFails` for row-level
upsert failures. -/
structure SyncEnv (α : Type) where
  tokenResult : Except String String
  fetchResult : Except String (List α)
  connResult : Except String Unit
  staleError : Option String
  commitError : Option String
  rowFails : ℕ → Bool

/-- Connection-lifecycle events of one run, in chronological order. -/
inductive DbEvent where
  | acquire
  | rollback
  | commit
  | close
deriving DecidableEq

/-- The `SyncResult` value object (service lines 18-30).  The wall-clock
fields (`dataInicio`, `dataFim`, `duracao`) are real-time measurements
outside the model. -/
structure SyncResult where
  success : Bool
  idSistema : ℕ
  empresa : String
  totalRegistros : ℕ
  registrosInseridos : ℕ
  registrosAtualizados : ℕ
  registrosDeletados : ℕ
  erro : Option String
deriving DecidableEq

/-- What one per-company run produces: the returned `SyncResult`, the
committed table after the run (a rolled-back transaction leaves the
committed table untouched), and the connection-lifecycle events. -/
structure RunTrace (K β : Type) where
  result : SyncResult
  table : List (MirrorRow K β)
  events : List DbEvent

/-- The failure `SyncResult` of the `catch` block (zero counts, the
error's message in `erro`). -/
def failSyncResult (idSistema : ℕ) (empresa msg : String) : SyncResult :=
  ⟨false, idSistema, empresa, 0, 0, 0, 0, some msg⟩

/-- `sincronizarExcecaoPrecoPorEmpresa` / `sincronizarFinanceiroPorEmpresa`
(service lines 210-332, part_000 lines 302-424): force-renew the token,
fetch and decode, acquire a connection, mark every active row of the
system stale, upsert every decoded record, commit.  Any exception reaches
the `catch` block, which rolls back when a connection exists and returns
a failure `SyncResult`; the `finally` block closes the connection
whenever one was acquired.  Log-sink writes have no observable effect
here and failures in them are swallowed by the source. -/
def sincronizarPorEmpresa [DecidableEq K] (keyOf : α → K) (payloadOf : α → β)
    (env : SyncEnv α) (table : List (MirrorRow K β)) (idSistema : ℕ)
    (empresaNome : String) (now : ℕ) : RunTrace K β :=
  match env.tokenResult with
  | .error e => ⟨failSyncResult idSistema empresaNome e, table, []⟩
  | .ok _ =>
    match env.fetchResult with
    | .error e => ⟨failSyncResult idSistema empresaNome e, table, []⟩
    | .ok registros =>
      match env.connResult with
      | .error e => ⟨failSyncResult idSistema empresaNome e, table, []⟩
      | .ok _ =>
        match env.staleError with
        | some e =>
          ⟨failSyncResult idSistema empresaNome e, table,
           [.acquire, .rollback, .close]⟩
        | none =>
          let m := marcarTodosComoNaoAtuais table idSistema now
          let u := upsertRegistros keyOf payloadOf env.rowFails idSistema now m.1 0 registros
          match env.commitError with
          | some e =>
            ⟨failSyncResult idSistema empresaNome e, table,
             [.acquire, .rollback, .close]⟩
          | none =>
            ⟨⟨true, idSistema, empresaNome, registros.length, u.2.1, u.2.2, m.2, none⟩,
             u.1, [.acquire, .commit, .close]⟩

/-- The message of the first step of a run that throws, if any, in the
order the source executes the steps. -/
def firstFailure (env : SyncEnv α) : Option String :=
  match env.tokenResult with
  | .error e => some e
  | .ok _ =>
    match env.fetchResult with
    | .error e => some e
    | .ok _ =>
      match env.connResult with
      | .error e => some e
      | .ok _ =>
        match env.staleError with
        | some e => some e
        | none => env.commitError

/-- The `for (const empresa of empresas)` loop of
`sincronizarTodasEmpresas` (service lines 337-393): one sequential
per-company run per directory entry, threading the committed table,
collecting every `SyncResult` in order (the fixed 2-second pause has no
observable effect in the model). -/
def batchLoop [DecidableEq K] (keyOf : α → K) (payloadOf : α → β)
    (envs : ℕ → SyncEnv α) (now : ℕ) :
    List (ℕ × String) → ℕ → List (MirrorRow K β) →
    List SyncResult × List (MirrorRow K β)
  | [], _, t => ([], t)
  | (id, nome) :: rest, i, t =>
    let tr := sincronizarPorEmpresa keyOf payloadOf (envs i) t id nome now
    let q := batchLoop keyOf payloadOf envs now rest (i + 1) tr.table
    (tr.result :: q.1, q.2)

/-- `sincronizarTodasEmpresas`: the directory of active companies (the
`AD_CONTRATOS` query, an external collaborator) arrives as the ordered
list `empresas`; each entry is reconciled in turn by `batchLoop`. -/
def sincronizarTodasEmpresas [DecidableEq K] (keyOf : α → K) (payloadOf : α → β)
    (envs : ℕ → SyncEnv α) (empresas : List (ℕ × String))
    (table : List (MirrorRow K β)) (now : ℕ) :
    List SyncResult × List (MirrorRow K β) :=
  batchLoop keyOf payloadOf envs now empresas 0 table

/-- The committed table just before the `j`-th entry of `empresas` is
processed (used to state that the batch runs strictly sequentially). -/
def batchTableAt [DecidableEq K] (keyOf : α → K) (payloadOf : α → β)
    (envs : ℕ → SyncEnv α) (now : ℕ) :
    List (ℕ × String) → ℕ → List (MirrorRow K β) → ℕ → List (MirrorRow K β)
  | _, _, t, 0 => t
  | [], _, t, _ + 1 => t
  | (id, nome) :: rest, i, t, j + 1 =>
    batchTableAt keyOf payloadOf envs now rest (i + 1)
      (sincronizarPorEmpresa keyOf payloadOf (envs i) t id nome now).table j

/-! ## The two instantiations of the engine -/

/-- The `ExcecaoPreco` record (service lines 7-16). -/
structure ExcecaoPreco where
  CODPROD : ℚ
  VLRANT : Option ℚ
  VARIACAO : Option ℚ
  NUTAB : ℚ
  TIPO : Option String
  VLRVENDA : Option ℚ
  CODLOCAL : ℚ
  CONTROLE : Option String
deriving DecidableEq

/-- Business key of `AS_EXCECAO_PRECO`: (CODPROD, NUTAB, CODLOCAL). -/
def excecaoKey (e : ExcecaoPreco) : ℚ × ℚ × ℚ := (e.CODPROD, e.NUTAB, e.CODLOCAL)

/-- The non-key business columns exactly as the `INSERT`/`UPDATE`
statements of `upsertExcecaoPreco` bind them (the `value || null`
coercions of lines 158-193). -/
structure ExcecaoPayload where
  VLRANT : Option ℚ
  VARIACAO : Option ℚ
  TIPO : Option String
  VLRVENDA : Option ℚ
  CONTROLE : Option String
deriving DecidableEq

/-- The bind values of `upsertExcecaoPreco`. -/
def excecaoPayloadOf (e : ExcecaoPreco) : ExcecaoPayload :=
  ⟨jsOrNullNum e.VLRANT, jsOrNullNum e.VARIACAO, jsOrNullStr e.TIPO,
   jsOrNullNum e.VLRVENDA, jsOrNullStr e.CONTROLE⟩

/-- `sincronizarExcecaoPrecoPorEmpresa` is the generic run at the
price-exception schema. -/
def sincronizarExcecaoPrecoPorEmpresa :
    SyncEnv ExcecaoPreco → List (MirrorRow (ℚ × ℚ × ℚ) ExcecaoPayload) →
    ℕ → String → ℕ → RunTrace (ℚ × ℚ × ℚ) ExcecaoPayload :=
  sincronizarPorEmpresa excecaoKey excecaoPayloadOf

/-- Lift the optional numeric field reaching `validarValorNumerico`
(`undefined` or a number in this model). -/
def numValOfOpt : Option ℚ → NumVal
  | none => .undef
  | some q => .num q

/-- The `Financeiro` record (part_000 lines 6-21). -/
structure Financeiro where
  NUFIN : ℚ
  CODPARC : Option ℚ
  CODEMP : Option ℚ
  VLRDESDOB : Option ℚ
  DTVENC : Option String
  DTNEG : Option String
  PROVISAO : Option String
  DHBAIXA : Option String
  VLRBAIXA : Option ℚ
  RECDESP : Option ℚ
  NOSSONUM : Option String
  CODCTABCOINT : Option ℚ
  HISTORICO : Option String
  NUMNOTA : Option ℚ
deriving DecidableEq

/-- Business key of `AS_FINANCEIRO`: NUFIN. -/
def financeiroKey (f : Financeiro) : ℚ := f.NUFIN

/-- The non-key business columns of `AS_FINANCEIRO` as bound by
`upsertFinanceiro`. -/
structure FinanceiroPayload where
  CODPARC : Option ℚ
  CODEMP : Option ℚ
  VLRDESDOB : Option ℚ
  DTVENC : Option JSDate
  DTNEG : Option JSDate
  PROVISAO : Option String
  DHBAIXA : Option JSDate
  VLRBAIXA : Option ℚ
  RECDESP : Option ℚ
  NOSSONUM : Option String
  CODCTABCOINT : Option ℚ
  HISTORICO : Option String
  NUMNOTA : Option ℚ
deriving DecidableEq

/-- The bind values of `upsertFinanceiro` (part_000 lines 199-293): the
three date columns go through `parseDataSankhya`, the two monetary
columns through `validarValorNumerico`, and every other optional column
through `value || null`. -/
def financeiroPayloadOf (f : Financeiro) : FinanceiroPayload :=
  ⟨jsOrNullNum f.CODPARC, jsOrNullNum f.CODEMP,
   validarValorNumerico (numValOfOpt f.VLRDESDOB),
   parseDataSankhya f.DTVENC, parseDataSankhya f.DTNEG,
   jsOrNullStr f.PROVISAO, parseDataSankhya f.DHBAIXA,
   validarValorNumerico (numValOfOpt f.VLRBAIXA),
   jsOrNullNum f.RECDESP, jsOrNullStr f.NOSSONUM,
   jsOrNullNum f.CODCTABCOINT, jsOrNullStr f.HISTORICO,
   jsOrNullNum f.NUMNOTA⟩

/-- `sincronizarFinanceiroPorEmpresa` is the generic run at the financial
schema. -/
def sincronizarFinanceiroPorEmpresa :
    SyncEnv Financeiro → List (MirrorRow ℚ FinanceiroPayload) →
    ℕ → String → ℕ → RunTrace ℚ FinanceiroPayload :=
  sincronizarPorEmpresa financeiroKey financeiroPayloadOf

/-! ## Table predicates -/

/-- Some row of the table carries (system, business key). -/
def hasKey (S : ℕ) (k : K) (t : List (MirrorRow K β)) : Prop :=
  ∃ r ∈ t, r.ID_SISTEMA = S ∧ r.key = k

/-- Some active (`SANKHYA_ATUAL = 'S'`) row of the table carries
(system, business key). -/
def activeKey (S : ℕ) (k : K) (t : List (MirrorRow K β)) : Prop :=
  ∃ r ∈ t, r.ID_SISTEMA = S ∧ r.key = k ∧ r.SANKHYA_ATUAL = true

instance (S : ℕ) (k : K) [DecidableEq K] (t : List (MirrorRow K β)) :
    Decidable (hasKey S k t) :=
  inferInstanceAs (Decidable (∃ r ∈ t, r.ID_SISTEMA = S ∧ r.key = k))

instance (S : ℕ) (k : K) [DecidableEq K] (t : List (MirrorRow K β)) :
    Decidable (activeKey S k t) :=
  inferInstanceAs (Decidable (∃ r ∈ t, r.ID_SISTEMA = S ∧ r.key = k ∧ r.SANKHYA_ATUAL = true))

/-- At most one row per (system, business key). -/
def atMostOnePerKey [DecidableEq K] (t : List (MirrorRow K β)) : Prop :=
  ∀ S k, t.countP (fun r => decide (r.ID_SISTEMA = S ∧ r.key = k)) ≤ 1

/-- At most one active row per (system, business key). -/
def atMostOneActive [DecidableEq K] (t : List (MirrorRow K β)) : Prop :=
  ∀ S k, t.countP
    (fun r => decide (r.ID_SISTEMA = S ∧ r.key = k ∧ r.SANKHYA_ATUAL = true)) ≤ 1

/-- The business keys of the records whose upsert does not fail, starting
at loop position `i` (the keys the loop actually re-activates). -/
def liveKeys (keyOf : α → K) (rowFails : ℕ → Bool) : ℕ → List α → List K
  | _, [] => []
  | i, rec :: rest =>
    if rowFails i then liveKeys keyOf rowFails (i + 1) rest
    else keyOf rec :: liveKeys keyOf rowFails (i + 1) rest

/-! ## Lemmas about the stale-marking step -/

theorem hasKey_map (f : MirrorRow K β → MirrorRow K β)
    (hf : ∀ r, (f r).ID_SISTEMA = r.ID_SISTEMA ∧ (f r).key = r.key)
    (t : List (MirrorRow K β)) (S : ℕ) (k : K) :
    hasKey S k (t.map f) ↔ hasKey S k t := by
  simp only [hasKey, List.mem_map]
  constructor
  · rintro ⟨r, ⟨a, ha, rfl⟩, h1, h2⟩
    exact ⟨a, ha, by rw [← (hf a).1, ← (hf a).2]; exact ⟨h1, h2⟩⟩
  · rintro ⟨a, ha, h1, h2⟩
    exact ⟨f a, ⟨a, ha, rfl⟩, (hf a).1.trans h1, (hf a).2.trans h2⟩

theorem marcar_fun_fields (S now : ℕ) (r : MirrorRow K β) :
    ((if r.ID_SISTEMA = S ∧ r.SANKHYA_ATUAL = true then
        { r with SANKHYA_ATUAL := false, DT_ULT_CARGA := now }
      else r) : MirrorRow K β).ID_SISTEMA = r.ID_SISTEMA ∧
    ((if r.ID_SISTEMA = S ∧ r.SANKHYA_ATUAL = true then
        { r with SANKHYA_ATUAL := false, DT_ULT_CARGA := now }
      else r) : MirrorRow K β).key = r.key := by
  by_cases hc : r.ID_SISTEMA = S ∧ r.SANKHYA_ATUAL = true <;> simp [hc]

theorem marcar_hasKey (t : List (MirrorRow K β)) (S now S' : ℕ) (k : K) :
    hasKey S' k (marcarTodosComoNaoAtuais t S now).1 ↔ hasKey S' k t :=
  hasKey_map _ (marcar_fun_fields S now) t S' k

theorem marcar_not_active (t : List (MirrorRow K β)) (S now : ℕ) (k : K) :
    ¬ activeKey S k (marcarTodosComoNaoAtuais t S now).1 := by
  rintro ⟨r, hr, h1, h2, h3⟩
  simp only [marcarTodosComoNaoAtuais, List.mem_map] at hr
  obtain ⟨a, ha, rfl⟩ := hr
  by_cases hc : a.ID_SISTEMA = S ∧ a.SANKHYA_ATUAL = true
  · simp [hc] at h3
  · simp only [if_neg hc] at h1 h3
    exact hc ⟨h1, h3⟩

theorem marcar_active_other (t : List (MirrorRow K β)) (S now S' : ℕ) (k : K)
    (hS : S' ≠ S) :
    activeKey S' k (marcarTodosComoNaoAtuais t S now).1 ↔ activeKey S' k t := by
  simp only [marcarTodosComoNaoAtuais, activeKey, List.mem_map]
  constructor
  · rintro ⟨r, ⟨a, ha, rfl⟩, h1, h2, h3⟩
    by_cases hc : a.ID_SISTEMA = S ∧ a.SANKHYA_ATUAL = true
    · rw [if_pos hc] at h1
      have h1' : a.ID_SISTEMA = S' := h1
      exact absurd (h1'.symm.trans hc.1) hS
    · rw [if_neg hc] at h1 h2 h3
      exact ⟨a, ha, h1, h2, h3⟩
  · rintro ⟨a, ha, h1, h2, h3⟩
    have hc : ¬ (a.ID_SISTEMA = S ∧ a.SANKHYA_ATUAL = true) := by
      rintro ⟨hs, -⟩
      exact hS (h1.symm.trans hs)
    refine ⟨_, ⟨a, ha, rfl⟩, ?_⟩
    rw [if_neg hc]
    exact ⟨h1, h2, h3⟩

theorem marcar_countP (t : List (MirrorRow K β)) (S now : ℕ)
    (p : MirrorRow K β → Bool)
    (hp : ∀ r, p { r with SANKHYA_ATUAL := false, DT_ULT_CARGA := now } = p r) :
    (marcarTodosComoNaoAtuais t S now).1.countP p = t.countP p := by
  simp only [marcarTodosComoNaoAtuais, List.countP_map]
  refine List.countP_congr fun r _ => ?_
  simp only [Function.comp_apply]
  by_cases hc : r.ID_SISTEMA = S ∧ r.SANKHYA_ATUAL = true
  · rw [if_pos hc, hp]
  · rw [if_neg hc]

theorem marcar_atMostOnePerKey [DecidableEq K] (t : List (MirrorRow K β))
    (S now : ℕ) (h : atMostOnePerKey t) :
    atMostOnePerKey (marcarTodosComoNaoAtuais t S now).1 := by
  intro S' k
  rw [marcar_countP t S now (fun r => decide (r.ID_SISTEMA = S' ∧ r.key = k))
    (fun r => rfl)]
  exact h S' k

/-! ## Lemmas about one upsert iteration -/

theorem upsertOne_any_iff [DecidableEq K] (keyOf : α → K) (t : List (MirrorRow K β))
    (S : ℕ) (rec : α) :
    (t.any fun r => decide (r.ID_SISTEMA = S ∧ r.key = keyOf rec)) = true ↔
      hasKey S (keyOf rec) t := by
  simp [hasKey, List.any_eq_true]

theorem upsert_fun_fields [DecidableEq K] (keyOf : α → K) (payloadOf : α → β)
    (S : ℕ) (rec : α) (now : ℕ) (r : MirrorRow K β) :
    ((if r.ID_SISTEMA = S ∧ r.key = keyOf rec then
        { r with payload := payloadOf rec, SANKHYA_ATUAL := true, DT_ULT_CARGA := now }
      else r) : MirrorRow K β).ID_SISTEMA = r.ID_SISTEMA ∧
    ((if r.ID_SISTEMA = S ∧ r.key = keyOf rec then
        { r with payload := payloadOf rec, SANKHYA_ATUAL := true, DT_ULT_CARGA := now }
      else r) : MirrorRow K β).key = r.key := by
  by_cases hc : r.ID_SISTEMA = S ∧ r.key = keyOf rec <;> simp [hc]

theorem countP_map_preserve [DecidableEq K] (f : MirrorRow K β → MirrorRow K β)
    (hf : ∀ r, (f r).ID_SISTEMA = r.ID_SISTEMA ∧ (f r).key = r.key)
    (t : List (MirrorRow K β)) (S' : ℕ) (k : K) :
    (t.map f).countP (fun r => decide (r.ID_SISTEMA = S' ∧ r.key = k)) =
      t.countP (fun r => decide (r.ID_SISTEMA = S' ∧ r.key = k)) := by
  rw [List.countP_map]
  refine List.countP_congr fun r _ => ?_
  simp only [Function.comp_apply, decide_eq_true_eq]
  rw [(hf r).1, (hf r).2]

theorem upsertOne_hasKey [DecidableEq K] (keyOf : α → K) (payloadOf : α → β)
    (t : List (MirrorRow K β)) (S : ℕ) (rec : α) (now S' : ℕ) (k : K) :
    hasKey S' k (upsertOne keyOf payloadOf t S rec now).1 ↔
      hasKey S' k t ∨ (S' = S ∧ k = keyOf rec) := by
  by_cases hex : (t.any fun r => decide (r.ID_SISTEMA = S ∧ r.key = keyOf rec)) = true
  · simp only [upsertOne, if_pos hex]
    rw [hasKey_map _ (upsert_fun_fields keyOf payloadOf S rec now)]
    constructor
    · exact Or.inl
    · rintro (h | ⟨rfl, rfl⟩)
      · exact h
      · exact (upsertOne_any_iff keyOf t _ rec).mp hex
  · simp only [upsertOne, if_neg hex]
    simp only [hasKey, List.mem_append, List.mem_singleton]
    constructor
    · rintro ⟨r, hr | rfl, h1, h2⟩
      · exact Or.inl ⟨r, hr, h1, h2⟩
      · have hS : S = S' := h1
        have hk : keyOf rec = k := h2
        exact Or.inr ⟨hS.symm, hk.symm⟩
    · rintro (⟨r, hr, h1, h2⟩ | ⟨rfl, rfl⟩)
      · exact ⟨r, Or.inl hr, h1, h2⟩
      · exact ⟨_, Or.inr rfl, rfl, rfl⟩

theorem upsertOne_active [DecidableEq K] (keyOf : α → K) (payloadOf : α → β)
    (t : List (MirrorRow K β)) (S : ℕ) (rec : α) (now S' : ℕ) (k : K) :
    activeKey S' k (upsertOne keyOf payloadOf t S rec now).1 ↔
      activeKey S' k t ∨ (S' = S ∧ k = keyOf rec) := by
  by_cases hex : (t.any fun r => decide (r.ID_SISTEMA = S ∧ r.key = keyOf rec)) = true
  · simp only [upsertOne, if_pos hex]
    simp only [activeKey, List.mem_map]
    constructor
    · rintro ⟨r, ⟨a, ha, rfl⟩, h1, h2, h3⟩
      by_cases hc : a.ID_SISTEMA = S ∧ a.key = keyOf rec
      · rw [if_pos hc] at h1 h2
        have h1' : a.ID_SISTEMA = S' := h1
        have h2' : a.key = k := h2
        exact Or.inr ⟨h1'.symm.trans hc.1, h2'.symm.trans hc.2⟩
      · rw [if_neg hc] at h1 h2 h3
        exact Or.inl ⟨a, ha, h1, h2, h3⟩
    · rintro (⟨a, ha, h1, h2, h3⟩ | ⟨rfl, rfl⟩)
      · refine ⟨_, ⟨a, ha, rfl⟩, ?_⟩
        by_cases hc : a.ID_SISTEMA = S ∧ a.key = keyOf rec
        · rw [if_pos hc]
          exact ⟨h1, h2, rfl⟩
        · rw [if_neg hc]
          exact ⟨h1, h2, h3⟩
      · obtain ⟨a, ha, hp⟩ := (upsertOne_any_iff keyOf t _ rec).mp hex
        refine ⟨_, ⟨a, ha, rfl⟩, ?_⟩
        rw [if_pos hp]
        exact ⟨hp.1, hp.2, rfl⟩
  · simp only [upsertOne, if_neg hex]
    simp only [activeKey, List.mem_append, List.mem_singleton]
    constructor
    · rintro ⟨r, hr | rfl, h1, h2, h3⟩
      · exact Or.inl ⟨r, hr, h1, h2, h3⟩
      · have hS : S = S' := h1
        have hk : keyOf rec = k := h2
        exact Or.inr ⟨hS.symm, hk.symm⟩
    · rintro (⟨r, hr, h1, h2, h3⟩ | ⟨rfl, rfl⟩)
      · exact ⟨r, Or.inl hr, h1, h2, h3⟩
      · exact ⟨_, Or.inr rfl, rfl, rfl, rfl⟩

theorem upsertOne_isUpd [DecidableEq K] (keyOf : α → K) (payloadOf : α → β)
    (t : List (MirrorRow K β)) (S : ℕ) (rec : α) (now : ℕ) :
    (upsertOne keyOf payloadOf t S rec now).2 = true ↔ hasKey S (keyOf rec) t := by
  by_cases hex : (t.any fun r => decide (r.ID_SISTEMA = S ∧ r.key = keyOf rec)) = true
  · simp only [upsertOne, if_pos hex]
    simpa using (upsertOne_any_iff keyOf t S rec).mp hex
  · simp only [upsertOne, if_neg hex]
    simp only [Bool.false_eq_true, false_iff]
    intro h
    exact hex ((upsertOne_any_iff keyOf t S rec).mpr h)

theorem upsertOne_atMostOnePerKey [DecidableEq K] (keyOf : α → K) (payloadOf : α → β)
    (t : List (MirrorRow K β)) (S : ℕ) (rec : α) (now : ℕ)
    (h : atMostOnePerKey t) :
    atMostOnePerKey (upsertOne keyOf payloadOf t S rec now).1 := by
  intro S' k
  by_cases hex : (t.any fun r => decide (r.ID_SISTEMA = S ∧ r.key = keyOf rec)) = true
  · simp only [upsertOne, if_pos hex]
    rw [countP_map_preserve _ (upsert_fun_fields keyOf payloadOf S rec now)]
    exact h S' k
  · simp only [upsertOne, if_neg hex]
    rw [List.countP_append, List.countP_singleton]
    by_cases hsk : S = S' ∧ keyOf rec = k
    · have h0 : t.countP (fun r => decide (r.ID_SISTEMA = S' ∧ r.key = k)) = 0 := by
        rw [List.countP_eq_zero]
        intro r hr hp
        rw [decide_eq_true_eq] at hp
        exact hex ((upsertOne_any_iff keyOf t S rec).mpr
          ⟨r, hr, hp.1.trans hsk.1.symm, hp.2.trans hsk.2.symm⟩)
      rw [h0]
      split <;> simp
    · have hnew :
          decide (((⟨S, keyOf rec, payloadOf rec, true, now, now⟩ : MirrorRow K β)).ID_SISTEMA = S'
            ∧ ((⟨S, keyOf rec, payloadOf rec, true, now, now⟩ : MirrorRow K β)).key = k) = false := by
        simpa using hsk
      simp only [hnew, Bool.false_eq_true, if_false]
      rw [Nat.add_zero]
      exact h S' k

theorem upsertOne_payload [DecidableEq K] (keyOf : α → K) (payloadOf : α → β)
    (t : List (MirrorRow K β)) (S : ℕ) (rec : α) (now : ℕ) :
    ∀ r ∈ (upsertOne keyOf payloadOf t S rec now).1, r ∈ t ∨ r.payload = payloadOf rec := by
  intro r hr
  by_cases hex : (t.any fun r => decide (r.ID_SISTEMA = S ∧ r.key = keyOf rec)) = true
  · simp only [upsertOne, if_pos hex] at hr
    obtain ⟨a, ha, rfl⟩ := List.mem_map.mp hr
    by_cases hc : a.ID_SISTEMA = S ∧ a.key = keyOf rec
    · rw [if_pos hc]
      exact Or.inr rfl
    · rw [if_neg hc]
      exact Or.inl ha
  · simp only [upsertOne, if_neg hex] at hr
    rcases List.mem_append.mp hr with h | h
    · exact Or.inl h
    · rw [List.mem_singleton] at h
      subst h
      exact Or.inr rfl

/-! ## Lemmas about the upsert loop -/

theorem upsertRegistros_hasKey [DecidableEq K] (keyOf : α → K) (payloadOf : α → β)
    (rowFails : ℕ → Bool) (S now : ℕ) (recs : List α) :
    ∀ (t : List (MirrorRow K β)) (i S' : ℕ) (k : K),
    hasKey S' k (upsertRegistros keyOf payloadOf rowFails S now t i recs).1 ↔
      hasKey S' k t ∨ (S' = S ∧ k ∈ liveKeys keyOf rowFails i recs) := by
  induction recs with
  | nil =>
    intro t i S' k
    simp [upsertRegistros, liveKeys]
  | cons rec rest ih =>
    intro t i S' k
    by_cases hf : rowFails i
    · simp only [upsertRegistros, liveKeys, if_pos hf]
      exact ih t (i + 1) S' k
    · simp only [upsertRegistros, liveKeys, if_neg hf]
      rw [ih (upsertOne keyOf payloadOf t S rec now).1 (i + 1) S' k,
        upsertOne_hasKey keyOf payloadOf t S rec now S' k]
      simp only [List.mem_cons]
      tauto

theorem upsertRegistros_active [DecidableEq K] (keyOf : α → K) (payloadOf : α → β)
    (rowFails : ℕ → Bool) (S now : ℕ) (recs : List α) :
    ∀ (t : List (MirrorRow K β)) (i S' : ℕ) (k : K),
    activeKey S' k (upsertRegistros keyOf payloadOf rowFails S now t i recs).1 ↔
      activeKey S' k t ∨ (S' = S ∧ k ∈ liveKeys keyOf rowFails i recs) := by
  induction recs with
  | nil =>
    intro t i S' k
    simp [upsertRegistros, liveKeys]
  | cons rec rest ih =>
    intro t i S' k
    by_cases hf : rowFails i
    · simp only [upsertRegistros, liveKeys, if_pos hf]
      exact ih t (i + 1) S' k
    · simp only [upsertRegistros, liveKeys, if_neg hf]
      rw [ih (upsertOne keyOf payloadOf t S rec now).1 (i + 1) S' k,
        upsertOne_active keyOf payloadOf t S rec now S' k]
      simp only [List.mem_cons]
      tauto

theorem upsertRegistros_counts [DecidableEq K] (keyOf : α → K) (payloadOf : α → β)
    (rowFails : ℕ → Bool) (S now : ℕ) (recs : List α) :
    ∀ (t : List (MirrorRow K β)) (i : ℕ),
    (upsertRegistros keyOf payloadOf rowFails S now t i recs).2.1 +
        (upsertRegistros keyOf payloadOf rowFails S now t i recs).2.2 =
      (liveKeys keyOf rowFails i recs).length := by
  induction recs with
  | nil =>
    intro t i
    simp [upsertRegistros, liveKeys]
  | cons rec rest ih =>
    intro t i
    by_cases hf : rowFails i
    · simp only [upsertRegistros, liveKeys, if_pos hf]
      exact ih t (i + 1)
    · simp only [upsertRegistros, liveKeys, if_neg hf, List.length_cons]
      have h := ih (upsertOne keyOf payloadOf t S rec now).1 (i + 1)
      cases hu : (upsertOne keyOf payloadOf t S rec now).2 <;> simp [hu] <;> omega

theorem upsertRegistros_atMostOnePerKey [DecidableEq K] (keyOf : α → K)
    (payloadOf : α → β) (rowFails : ℕ → Bool) (S now : ℕ) (recs : List α) :
    ∀ (t : List (MirrorRow K β)) (i : ℕ), atMostOnePerKey t →
    atMostOnePerKey (upsertRegistros keyOf payloadOf rowFails S now t i recs).1 := by
  induction recs with
  | nil =>
    intro t i h
    simpa [upsertRegistros] using h
  | cons rec rest ih =>
    intro t i h
    by_cases hf : rowFails i
    · simp only [upsertRegistros, if_pos hf]
      exact ih t (i + 1) h
    · simp only [upsertRegistros, if_neg hf]
      exact ih _ (i + 1) (upsertOne_atMostOnePerKey keyOf payloadOf t S rec now h)

theorem upsertRegistros_all_updates [DecidableEq K] (keyOf : α → K)
    (payloadOf : α → β) (rowFails : ℕ → Bool) (S now : ℕ) (recs : List α) :
    ∀ (t : List (MirrorRow K β)) (i : ℕ), (∀ j, rowFails j = false) →
    (∀ rec ∈ recs, hasKey S (keyOf rec) t) →
    (upsertRegistros keyOf payloadOf rowFails S now t i recs).2.1 = 0 ∧
    (upsertRegistros keyOf payloadOf rowFails S now t i recs).2.2 = recs.length := by
  induction recs with
  | nil =>
    intro t i _ _
    simp [upsertRegistros]
  | cons rec rest ih =>
    intro t i hnf hkeys
    have hf : rowFails i = false := hnf i
    have hu : (upsertOne keyOf payloadOf t S rec now).2 = true :=
      (upsertOne_isUpd keyOf payloadOf t S rec now).mpr
        (hkeys rec (List.mem_cons_self rec rest))
    have hrest : ∀ r ∈ rest, hasKey S (keyOf r) (upsertOne keyOf payloadOf t S rec now).1 :=
      fun r hr => (upsertOne_hasKey keyOf payloadOf t S rec now S (keyOf r)).mpr
        (Or.inl (hkeys r (List.mem_cons_of_mem rec hr)))
    obtain ⟨h1, h2⟩ := ih (upsertOne keyOf payloadOf t S rec now).1 (i + 1) hnf hrest
    simp [upsertRegistros, hf, hu, h1, h2]

theorem mem_liveKeys (keyOf : α → K) (rowFails : ℕ → Bool) (recs : List α) :
    ∀ (i j : ℕ) (hj : j < recs.length), rowFails (i + j) = false →
    keyOf (recs.get ⟨j, hj⟩) ∈ liveKeys keyOf rowFails i recs := by
  induction recs with
  | nil =>
    intro i j hj
    exact absurd hj (by simp)
  | cons rec rest ih =>
    intro i j hj hf
    cases j with
    | zero =>
      have hfi : rowFails i = false := by simpa using hf
      simp [liveKeys, hfi]
    | succ j' =>
      have hf' : rowFails (i + 1 + j') = false := by
        rw [show i + 1 + j' = i + (j' + 1) by omega]
        exact hf
      have hmem := ih (i + 1) j' (by simpa using Nat.lt_of_succ_lt_succ hj) hf'
      simp only [List.get_eq_getElem] at hmem
      by_cases hfi : rowFails i <;> simp [liveKeys, hfi] <;>
        first
        | exact hmem
        | exact Or.inr hmem

theorem liveKeys_no_failure (keyOf : α → K) (rowFails : ℕ → Bool)
    (h : ∀ j, rowFails j = false) :
    ∀ (recs : List α) (i : ℕ), liveKeys keyOf rowFails i recs = recs.map keyOf := by
  intro recs
  induction recs with
  | nil => intro i; simp [liveKeys]
  | cons rec rest ih =>
    intro i
    simp [liveKeys, h i, ih (i + 1)]

theorem liveKeys_length_single (keyOf : α → K) (i₀ : ℕ) :
    ∀ (recs : List α) (i : ℕ),
    (liveKeys keyOf (fun j => decide (j = i₀)) i recs).length =
      recs.length - (if i ≤ i₀ ∧ i₀ < i + recs.length then 1 else 0) := by
  intro recs
  induction recs with
  | nil => intro i; simp [liveKeys]
  | cons rec rest ih =>
    intro i
    by_cases hi : i = i₀
    · subst hi
      have hstep : liveKeys keyOf (fun j => decide (j = i)) i (rec :: rest) =
          liveKeys keyOf (fun j => decide (j = i)) (i + 1) rest := by
        simp [liveKeys]
      rw [hstep, ih (i + 1),
        if_neg (show ¬ (i + 1 ≤ i ∧ i < i + 1 + rest.length) by omega),
        if_pos (show i ≤ i ∧ i < i + (rec :: rest).length by
          simp only [List.length_cons]; omega)]
      simp
    · simp only [liveKeys]
      rw [if_neg (by simpa using hi)]
      simp only [List.length_cons]
      rw [ih (i + 1)]
      have hiff : (i + 1 ≤ i₀ ∧ i₀ < i + 1 + rest.length) ↔
          (i ≤ i₀ ∧ i₀ < i + (rest.length + 1)) := by omega
      by_cases h1 : i + 1 ≤ i₀ ∧ i₀ < i + 1 + rest.length
      · rw [if_pos h1, if_pos (hiff.mp h1)]
        omega
      · rw [if_neg h1, if_neg (fun h => h1 (hiff.mpr h))]
        omega

/-! ## The success path of one run -/

theorem sincronizar_success_eq [DecidableEq K] (keyOf : α → K) (payloadOf : α → β)
    (tk : String) (regs : List α) (rowFails : ℕ → Bool)
    (table : List (MirrorRow K β)) (S : ℕ) (emp : String) (now : ℕ) :
    sincronizarPorEmpresa keyOf payloadOf
        ⟨.ok tk, .ok regs, .ok (), none, none, rowFails⟩ table S emp now =
      ⟨⟨true, S, emp, regs.length,
        (upsertRegistros keyOf payloadOf rowFails S now
          (marcarTodosComoNaoAtuais table S now).1 0 regs).2.1,
        (upsertRegistros keyOf payloadOf rowFails S now
          (marcarTodosComoNaoAtuais table S now).1 0 regs).2.2,
        (marcarTodosComoNaoAtuais table S now).2, none⟩,
       (upsertRegistros keyOf payloadOf rowFails S now
         (marcarTodosComoNaoAtuais table S now).1 0 regs).1,
       [.acquire, .commit, .close]⟩ := rfl

/-! ## Claim C1: tombstone invariant and at-most-one-active -/

/-- **C1, counterexample.** The claim as stated omits the no-row-failure
premiss: here the single snapshot record's upsert throws, the run still
commits with `success = true`, yet the key (1,1,1), which appeared in the
fetched snapshot, is left inactive (claim: active iff in snapshot). -/
theorem c1_counterexample :
    (sincronizarExcecaoPrecoPorEmpresa
        ⟨.ok "tok", .ok [⟨1, none, none, 1, none, none, 1, none⟩], .ok (), none, none,
          fun i => decide (i = 0)⟩
        [⟨1, (1, 1, 1), ⟨none, none, none, none, none⟩, true, 0, 0⟩]
        1 "Empresa" 5).result.success = true ∧
    (∃ rec ∈ [(⟨1, none, none, 1, none, none, 1, none⟩ : ExcecaoPreco)],
      excecaoKey rec = ((1 : ℚ), (1 : ℚ), (1 : ℚ))) ∧
    ¬ activeKey 1 ((1 : ℚ), (1 : ℚ), (1 : ℚ))
        (sincronizarExcecaoPrecoPorEmpresa
          ⟨.ok "tok", .ok [⟨1, none, none, 1, none, none, 1, none⟩], .ok (), none, none,
            fun i => decide (i = 0)⟩
          [⟨1, (1, 1, 1), ⟨none, none, none, none, none⟩, true, 0, 0⟩]
          1 "Empresa" 5).table := by decide

/-- **C1 (amended).** After a successful run with fetched snapshot `regs`
during which no row-level upsert failure occurred, a (system, key) pair of
system `S` is active iff the key appeared in `regs` (so an empty snapshot
leaves every previously active row of `S` inactive), and if the table held
at most one row per (system, key) before the run it holds at most one row
— hence at most one active row — per (system, key) afterwards. -/
theorem c1_tombstone_amended [DecidableEq K] (keyOf : α → K) (payloadOf : α → β)
    (env : SyncEnv α) (regs : List α) (table : List (MirrorRow K β))
    (S : ℕ) (emp : String) (now : ℕ)
    (hfetch : env.fetchResult = .ok regs)
    (hsucc : (sincronizarPorEmpresa keyOf payloadOf env table S emp now).result.success = true)
    (hnofail : ∀ i, env.rowFails i = false) :
    (∀ k, activeKey S k (sincronizarPorEmpresa keyOf payloadOf env table S emp now).table ↔
      ∃ rec ∈ regs, keyOf rec = k) ∧
    (atMostOnePerKey table →
      atMostOneActive (sincronizarPorEmpresa keyOf payloadOf env table S emp now).table) := by
  obtain ⟨tok, fetch, conn, stale, commit, fails⟩ := env
  simp only at hfetch hnofail
  subst hfetch
  cases tok with
  | error e => simp [sincronizarPorEmpresa, failSyncResult] at hsucc
  | ok tk =>
  cases conn with
  | error e => simp [sincronizarPorEmpresa, failSyncResult] at hsucc
  | ok u =>
  cases u
  cases stale with
  | some e => simp [sincronizarPorEmpresa, failSyncResult] at hsucc
  | none =>
  cases commit with
  | some e => simp [sincronizarPorEmpresa, failSyncResult] at hsucc
  | none =>
  rw [sincronizar_success_eq keyOf payloadOf tk regs fails table S emp now]
  constructor
  · intro k
    simp only
    rw [upsertRegistros_active keyOf payloadOf fails S now regs
        (marcarTodosComoNaoAtuais table S now).1 0 S k,
      liveKeys_no_failure keyOf fails hnofail regs 0]
    constructor
    · rintro (hact | ⟨-, hk⟩)
      · exact absurd hact (marcar_not_active table S now k)
      · obtain ⟨rec, hrec, rfl⟩ := List.mem_map.mp hk
        exact ⟨rec, hrec, rfl⟩
    · rintro ⟨rec, hrec, rfl⟩
      exact Or.inr ⟨rfl, List.mem_map_of_mem keyOf hrec⟩
  · intro hone
    have h2 := upsertRegistros_atMostOnePerKey keyOf payloadOf fails S now regs
      (marcarTodosComoNaoAtuais table S now).1 0 (marcar_atMostOnePerKey table S now hone)
    intro S' k
    refine le_trans (List.countP_mono_left fun r _ hp => ?_) (h2 S' k)
    simp only [decide_eq_true_eq] at hp ⊢
    exact ⟨hp.1, hp.2.1⟩

/-- Witness for `c1_tombstone_amended` at a concrete successful run. -/
theorem c1_witness :
    activeKey 7 ((2 : ℚ), (3 : ℚ), (4 : ℚ))
      (sincronizarExcecaoPrecoPorEmpresa
        ⟨.ok "tok", .ok [⟨2, none, none, 3, none, none, 4, none⟩], .ok (), none, none,
          fun _ => false⟩ [] 7 "Empresa" 1).table ∧
    atMostOneActive
      (sincronizarExcecaoPrecoPorEmpresa
        ⟨.ok "tok", .ok [⟨2, none, none, 3, none, none, 4, none⟩], .ok (), none, none,
          fun _ => false⟩ [] 7 "Empresa" 1).table := by
  have h := c1_tombstone_amended excecaoKey excecaoPayloadOf
    ⟨.ok "tok", .ok [⟨2, none, none, 3, none, none, 4, none⟩], .ok (), none, none,
      fun _ => false⟩
    [⟨2, none, none, 3, none, none, 4, none⟩] [] 7 "Empresa" 1 rfl (by decide)
    (fun i => rfl)
  refine ⟨(h.1 ((2 : ℚ), (3 : ℚ), (4 : ℚ))).mpr
    ⟨⟨2, none, none, 3, none, none, 4, none⟩, by simp, rfl⟩, h.2 (fun S k => by simp)⟩

/-! ## Claim C2: idempotence -/

/-- **C2.** With a fixed snapshot `regs`, any initial mirror state and no
row-level failure, two successive runs produce the same active
(system, key) set, and the second run inserts nothing and counts every
snapshot record as updated. -/
theorem c2_idempotence [DecidableEq K] (keyOf : α → K) (payloadOf : α → β)
    (tk1 tk2 : String) (regs : List α) (f1 f2 : ℕ → Bool)
    (h1 : ∀ i, f1 i = false) (h2 : ∀ i, f2 i = false)
    (table : List (MirrorRow K β)) (S : ℕ) (emp1 emp2 : String) (now1 now2 : ℕ) :
    (∀ S' k, activeKey S' k
        (sincronizarPorEmpresa keyOf payloadOf
          ⟨.ok tk1, .ok regs, .ok (), none, none, f1⟩ table S emp1 now1).table ↔
      activeKey S' k
        (sincronizarPorEmpresa keyOf payloadOf
          ⟨.ok tk2, .ok regs, .ok (), none, none, f2⟩
          (sincronizarPorEmpresa keyOf payloadOf
            ⟨.ok tk1, .ok regs, .ok (), none, none, f1⟩ table S emp1 now1).table
          S emp2 now2).table) ∧
    (sincronizarPorEmpresa keyOf payloadOf
        ⟨.ok tk2, .ok regs, .ok (), none, none, f2⟩
        (sincronizarPorEmpresa keyOf payloadOf
          ⟨.ok tk1, .ok regs, .ok (), none, none, f1⟩ table S emp1 now1).table
        S emp2 now2).result.registrosInseridos = 0 ∧
    (sincronizarPorEmpresa keyOf payloadOf
        ⟨.ok tk2, .ok regs, .ok (), none, none, f2⟩
        (sincronizarPorEmpresa keyOf payloadOf
          ⟨.ok tk1, .ok regs, .ok (), none, none, f1⟩ table S emp1 now1).table
        S emp2 now2).result.registrosAtualizados = regs.length := by
  rw [sincronizar_success_eq keyOf payloadOf tk1 regs f1 table S emp1 now1]
  simp only
  rw [sincronizar_success_eq keyOf payloadOf tk2 regs f2 _ S emp2 now2]
  simp only
  have hkeys : ∀ rec ∈ regs, hasKey S (keyOf rec)
      (marcarTodosComoNaoAtuais
        (upsertRegistros keyOf payloadOf f1 S now1
          (marcarTodosComoNaoAtuais table S now1).1 0 regs).1 S now2).1 := by
    intro rec hrec
    rw [marcar_hasKey]
    rw [upsertRegistros_hasKey keyOf payloadOf f1 S now1 regs
        (marcarTodosComoNaoAtuais table S now1).1 0 S (keyOf rec),
      liveKeys_no_failure keyOf f1 h1 regs 0]
    exact Or.inr ⟨rfl, List.mem_map_of_mem keyOf hrec⟩
  obtain ⟨hi0, hu0⟩ := upsertRegistros_all_updates keyOf payloadOf f2 S now2 regs _ 0 h2 hkeys
  refine ⟨?_, hi0, hu0⟩
  intro S' k
  rw [upsertRegistros_active keyOf payloadOf f2 S now2 regs _ 0 S' k,
    upsertRegistros_active keyOf payloadOf f1 S now1 regs
      (marcarTodosComoNaoAtuais table S now1).1 0 S' k,
    liveKeys_no_failure keyOf f1 h1 regs 0, liveKeys_no_failure keyOf f2 h2 regs 0]
  by_cases hS' : S' = S
  · subst hS'
    have hm1 := marcar_not_active table S' now1 k
    have hm2 := marcar_not_active
      (upsertRegistros keyOf payloadOf f1 S' now1
        (marcarTodosComoNaoAtuais table S' now1).1 0 regs).1 S' now2 k
    tauto
  · rw [marcar_active_other table S now1 S' k hS',
      marcar_active_other _ S now2 S' k hS',
      upsertRegistros_active keyOf payloadOf f1 S now1 regs
        (marcarTodosComoNaoAtuais table S now1).1 0 S' k,
      liveKeys_no_failure keyOf f1 h1 regs 0,
      marcar_active_other table S now1 S' k hS']
    tauto

/-- Witness for `c2_idempotence` at a concrete snapshot. -/
theorem c2_witness :
    (sincronizarExcecaoPrecoPorEmpresa
        ⟨.ok "t2", .ok [⟨8, none, none, 9, none, none, 10, none⟩], .ok (), none, none,
          fun _ => false⟩
        (sincronizarExcecaoPrecoPorEmpresa
          ⟨.ok "t1", .ok [⟨8, none, none, 9, none, none, 10, none⟩], .ok (), none, none,
            fun _ => false⟩ [] 3 "E" 1).table
        3 "E" 2).result.registrosInseridos = 0 ∧
    (sincronizarExcecaoPrecoPorEmpresa
        ⟨.ok "t2", .ok [⟨8, none, none, 9, none, none, 10, none⟩], .ok (), none, none,
          fun _ => false⟩
        (sincronizarExcecaoPrecoPorEmpresa
          ⟨.ok "t1", .ok [⟨8, none, none, 9, none, none, 10, none⟩], .ok (), none, none,
            fun _ => false⟩ [] 3 "E" 1).table
        3 "E" 2).result.registrosAtualizados = 1 := by
  have h := c2_idempotence excecaoKey excecaoPayloadOf "t1" "t2"
    [⟨8, none, none, 9, none, none, 10, none⟩] (fun _ => false) (fun _ => false)
    (fun i => rfl) (fun i => rfl) [] 3 "E" "E" 1 2
  exact ⟨h.2.1, h.2.2⟩

/-! ## Claim C3: partial-failure isolation -/

/-- **C3.** If exactly the record at position `i₀` of the `N`-record
snapshot throws during its upsert, the error is swallowed, that record is
counted neither as inserted nor as updated, every other record is still
processed (its key ends up active), and the run commits with
`success = true` and `inseridos + atualizados = N - 1`. -/
theorem c3_partial_failure [DecidableEq K] (keyOf : α → K) (payloadOf : α → β)
    (tk : String) (regs : List α) (i₀ : ℕ) (hi : i₀ < regs.length)
    (table : List (MirrorRow K β)) (S : ℕ) (emp : String) (now : ℕ) :
    (sincronizarPorEmpresa keyOf payloadOf
        ⟨.ok tk, .ok regs, .ok (), none, none, fun j => decide (j = i₀)⟩
        table S emp now).result.success = true ∧
    (sincronizarPorEmpresa keyOf payloadOf
        ⟨.ok tk, .ok regs, .ok (), none, none, fun j => decide (j = i₀)⟩
        table S emp now).result.registrosInseridos +
      (sincronizarPorEmpresa keyOf payloadOf
        ⟨.ok tk, .ok regs, .ok (), none, none, fun j => decide (j = i₀)⟩
        table S emp now).result.registrosAtualizados = regs.length - 1 ∧
    (∀ j (hj : j < regs.length), j ≠ i₀ →
      activeKey S (keyOf (regs.get ⟨j, hj⟩))
        (sincronizarPorEmpresa keyOf payloadOf
          ⟨.ok tk, .ok regs, .ok (), none, none, fun j => decide (j = i₀)⟩
          table S emp now).table) := by
  rw [sincronizar_success_eq keyOf payloadOf tk regs (fun j => decide (j = i₀))
    table S emp now]
  refine ⟨rfl, ?_, ?_⟩
  · simp only
    rw [upsertRegistros_counts keyOf payloadOf (fun j => decide (j = i₀)) S now regs
        (marcarTodosComoNaoAtuais table S now).1 0,
      liveKeys_length_single keyOf i₀ regs 0]
    rw [if_pos ⟨Nat.zero_le i₀, by omega⟩]
  · intro j hj hne
    simp only
    rw [upsertRegistros_active keyOf payloadOf (fun j => decide (j = i₀)) S now regs
      (marcarTodosComoNaoAtuais table S now).1 0 S (keyOf (regs.get ⟨j, hj⟩))]
    exact Or.inr ⟨rfl, mem_liveKeys keyOf (fun j => decide (j = i₀)) regs 0 j hj
      (by simp [hne])⟩

/-- Witness for `c3_partial_failure`: two records, the first one fails. -/
theorem c3_witness :
    (sincronizarExcecaoPrecoPorEmpresa
        ⟨.ok "t", .ok [⟨1, none, none, 1, none, none, 1, none⟩,
            ⟨2, none, none, 2, none, none, 2, none⟩], .ok (), none, none,
          fun j => decide (j = 0)⟩ [] 5 "E" 9).result.success = true ∧
    (sincronizarExcecaoPrecoPorEmpresa
        ⟨.ok "t", .ok [⟨1, none, none, 1, none, none, 1, none⟩,
            ⟨2, none, none, 2, none, none, 2, none⟩], .ok (), none, none,
          fun j => decide (j = 0)⟩ [] 5 "E" 9).result.registrosInseridos +
      (sincronizarExcecaoPrecoPorEmpresa
        ⟨.ok "t", .ok [⟨1, none, none, 1, none, none, 1, none⟩,
            ⟨2, none, none, 2, none, none, 2, none⟩], .ok (), none, none,
          fun j => decide (j = 0)⟩ [] 5 "E" 9).result.registrosAtualizados = 1 ∧
    activeKey 5 ((2 : ℚ), (2 : ℚ), (2 : ℚ))
      (sincronizarExcecaoPrecoPorEmpresa
        ⟨.ok "t", .ok [⟨1, none, none, 1, none, none, 1, none⟩,
            ⟨2, none, none, 2, none, none, 2, none⟩], .ok (), none, none,
          fun j => decide (j = 0)⟩ [] 5 "E" 9).table := by
  have h := c3_partial_failure excecaoKey excecaoPayloadOf "t"
    [⟨1, none, none, 1, none, none, 1, none⟩, ⟨2, none, none, 2, none, none, 2, none⟩]
    0 (by decide) [] 5 "E" 9
  exact ⟨h.1, by simpa using h.2.1, h.2.2 1 (by decide) (by decide)⟩

/-! ## Claim C7: fatal-error handling of one run -/

/-- **C7.** Whenever token acquisition, the fetch/decode, connection
acquisition, stale-marking or the commit throws, the run returns (never
throws) a single failure `SyncResult` carrying the throwing step's message
in `erro`, leaves the committed table untouched, rolls back whenever a
connection was acquired, and closes the connection as the final step
exactly on the paths that acquired one. -/
theorem c7_failure_handling [DecidableEq K] (keyOf : α → K) (payloadOf : α → β)
    (env : SyncEnv α) (table : List (MirrorRow K β)) (S : ℕ) (emp : String) (now : ℕ)
    (h : (∃ e, env.tokenResult = .error e) ∨ (∃ e, env.fetchResult = .error e) ∨
      (∃ e, env.connResult = .error e) ∨ (∃ e, env.staleError = some e) ∨
      (∃ e, env.commitError = some e)) :
    (sincronizarPorEmpresa keyOf payloadOf env table S emp now).result.success = false ∧
    (sincronizarPorEmpresa keyOf payloadOf env table S emp now).result.erro =
      firstFailure env ∧
    (firstFailure env).isSome = true ∧
    (sincronizarPorEmpresa keyOf payloadOf env table S emp now).table = table ∧
    (DbEvent.acquire ∈ (sincronizarPorEmpresa keyOf payloadOf env table S emp now).events →
      DbEvent.rollback ∈ (sincronizarPorEmpresa keyOf payloadOf env table S emp now).events) ∧
    (DbEvent.close ∈ (sincronizarPorEmpresa keyOf payloadOf env table S emp now).events ↔
      DbEvent.acquire ∈ (sincronizarPorEmpresa keyOf payloadOf env table S emp now).events) ∧
    (DbEvent.acquire ∈ (sincronizarPorEmpresa keyOf payloadOf env table S emp now).events →
      (sincronizarPorEmpresa keyOf payloadOf env table S emp now).events.getLast? =
        some DbEvent.close) := by
  obtain ⟨tok, fetch, conn, stale, commit, fails⟩ := env
  cases tok with
  | error e => exact ⟨rfl, rfl, rfl, rfl, by simp [sincronizarPorEmpresa],
      by simp [sincronizarPorEmpresa], by simp [sincronizarPorEmpresa]⟩
  | ok tk =>
  cases fetch with
  | error e => exact ⟨rfl, rfl, rfl, rfl, by simp [sincronizarPorEmpresa],
      by simp [sincronizarPorEmpresa], by simp [sincronizarPorEmpresa]⟩
  | ok regs =>
  cases conn with
  | error e => exact ⟨rfl, rfl, rfl, rfl, by simp [sincronizarPorEmpresa],
      by simp [sincronizarPorEmpresa], by simp [sincronizarPorEmpresa]⟩
  | ok u =>
  cases u
  cases stale with
  | some e => exact ⟨rfl, rfl, rfl, rfl, by simp [sincronizarPorEmpresa],
      by simp [sincronizarPorEmpresa], by simp [sincronizarPorEmpresa]⟩
  | none =>
  cases commit with
  | some e => exact ⟨rfl, rfl, rfl, rfl, by simp [sincronizarPorEmpresa],
      by simp [sincronizarPorEmpresa], by simp [sincronizarPorEmpresa]⟩
  | none =>
  rcases h with ⟨e, he⟩ | ⟨e, he⟩ | ⟨e, he⟩ | ⟨e, he⟩ | ⟨e, he⟩ <;> simp at he

/-- Witness for `c7_failure_handling`: a run whose commit throws. -/
theorem c7_witness :
    (sincronizarExcecaoPrecoPorEmpresa
        ⟨.ok "tok", .ok [], .ok (), none, some "ORA-00001", fun _ => false⟩
        [] 4 "E" 0).result.success = false ∧
    (sincronizarExcecaoPrecoPorEmpresa
        ⟨.ok "tok", .ok [], .ok (), none, some "ORA-00001", fun _ => false⟩
        [] 4 "E" 0).result.erro = some "ORA-00001" ∧
    (sincronizarExcecaoPrecoPorEmpresa
        ⟨.ok "tok", .ok [], .ok (), none, some "ORA-00001", fun _ => false⟩
        [] 4 "E" 0).events.getLast? = some DbEvent.close := by
  have h := c7_failure_handling excecaoKey excecaoPayloadOf
    ⟨.ok "tok", .ok [], .ok (), none, some "ORA-00001", fun _ => false⟩
    [] 4 "E" 0 (Or.inr (Or.inr (Or.inr (Or.inr ⟨"ORA-00001", rfl⟩))))
  exact ⟨h.1, h.2.1, h.2.2.2.2.2.2 (by decide)⟩

/-! ## Claim C9: failure before the connection is acquired -/

/-- **C9.** If token acquisition or the fetch/decode throws, the run has
acquired no connection yet: no database event happens at all, the mirror
table is untouched, and a failure `SyncResult` is returned. -/
theorem c9_no_db_effect [DecidableEq K] (keyOf : α → K) (payloadOf : α → β)
    (env : SyncEnv α) (table : List (MirrorRow K β)) (S : ℕ) (emp : String) (now : ℕ)
    (h : (∃ e, env.tokenResult = .error e) ∨
      ((∃ tk, env.tokenResult = .ok tk) ∧ ∃ e, env.fetchResult = .error e)) :
    (sincronizarPorEmpresa keyOf payloadOf env table S emp now).table = table ∧
    (sincronizarPorEmpresa keyOf payloadOf env table S emp now).events = [] ∧
    (sincronizarPorEmpresa keyOf payloadOf env table S emp now).result.success = false := by
  obtain ⟨tok, fetch, conn, stale, commit, fails⟩ := env
  cases tok with
  | error e => exact ⟨rfl, rfl, rfl⟩
  | ok tk =>
  cases fetch with
  | error e => exact ⟨rfl, rfl, rfl⟩
  | ok regs =>
  rcases h with ⟨e, he⟩ | ⟨-, e, he⟩ <;> simp at he

/-- Witness for `c9_no_db_effect`: failing token acquisition. -/
theorem c9_witness :
    (sincronizarExcecaoPrecoPorEmpresa
        ⟨.error "401 Unauthorized", .ok [], .ok (), none, none, fun _ => false⟩
        [⟨2, (1, 1, 1), ⟨none, none, none, none, none⟩, true, 0, 0⟩]
        2 "E" 0).table =
      [⟨2, (1, 1, 1), ⟨none, none, none, none, none⟩, true, 0, 0⟩] ∧
    (sincronizarExcecaoPrecoPorEmpresa
        ⟨.error "401 Unauthorized", .ok [], .ok (), none, none, fun _ => false⟩
        [⟨2, (1, 1, 1), ⟨none, none, none, none, none⟩, true, 0, 0⟩]
        2 "E" 0).events = [] := by
  have h := c9_no_db_effect excecaoKey excecaoPayloadOf
    ⟨.error "401 Unauthorized", .ok [], .ok (), none, none, fun _ => false⟩
    [⟨2, (1, 1, 1), ⟨none, none, none, none, none⟩, true, 0, 0⟩]
    2 "E" 0 (Or.inl ⟨"401 Unauthorized", rfl⟩)
  exact ⟨h.1, h.2.1⟩

/-! ## Claim C8: the batch driver -/

theorem run_identity [DecidableEq K] (keyOf : α → K) (payloadOf : α → β)
    (env : SyncEnv α) (table : List (MirrorRow K β)) (S : ℕ) (emp : String) (now : ℕ) :
    (sincronizarPorEmpresa keyOf payloadOf env table S emp now).result.idSistema = S ∧
    (sincronizarPorEmpresa keyOf payloadOf env table S emp now).result.empresa = emp := by
  obtain ⟨tok, fetch, conn, stale, commit, fails⟩ := env
  cases tok with
  | error e => exact ⟨rfl, rfl⟩
  | ok tk =>
  cases fetch with
  | error e => exact ⟨rfl, rfl⟩
  | ok regs =>
  cases conn with
  | error e => exact ⟨rfl, rfl⟩
  | ok u =>
  cases u
  cases stale with
  | some e => exact ⟨rfl, rfl⟩
  | none =>
  cases commit with
  | some e => exact ⟨rfl, rfl⟩
  | none => exact ⟨rfl, rfl⟩

theorem batchLoop_length [DecidableEq K] (keyOf : α → K) (payloadOf : α → β)
    (envs : ℕ → SyncEnv α) (now : ℕ) :
    ∀ (empresas : List (ℕ × String)) (i : ℕ) (t : List (MirrorRow K β)),
    (batchLoop keyOf payloadOf envs now empresas i t).1.length = empresas.length := by
  intro empresas
  induction empresas with
  | nil => intro i t; rfl
  | cons e rest ih =>
    intro i t
    obtain ⟨id, nome⟩ := e
    simp [batchLoop, ih]

theorem batchLoop_get [DecidableEq K] (keyOf : α → K) (payloadOf : α → β)
    (envs : ℕ → SyncEnv α) (now : ℕ) :
    ∀ (empresas : List (ℕ × String)) (i : ℕ) (t : List (MirrorRow K β))
      (j : ℕ) (hj : j < empresas.length),
    (batchLoop keyOf payloadOf envs now empresas i t).1.get
        ⟨j, by rw [batchLoop_length]; exact hj⟩ =
      (sincronizarPorEmpresa keyOf payloadOf (envs (i + j))
        (batchTableAt keyOf payloadOf envs now empresas i t j)
        (empresas.get ⟨j, hj⟩).1 (empresas.get ⟨j, hj⟩).2 now).result := by
  intro empresas
  induction empresas with
  | nil =>
    intro i t j hj
    exact absurd hj (by simp)
  | cons e rest ih =>
    intro i t j hj
    obtain ⟨id, nome⟩ := e
    cases j with
    | zero => simp [batchLoop, batchTableAt]
    | succ j' =>
      rw [show i + (j' + 1) = i + 1 + j' from by omega]
      exact ih (i + 1)
        (sincronizarPorEmpresa keyOf payloadOf (envs i) t id nome now).table j'
        (Nat.lt_of_succ_lt_succ hj)

/-- **C8.** The batch driver produces exactly one `SyncResult` per active
directory entry, in directory order; the `j`-th result is precisely the
outcome of the per-company run for the `j`-th company, executed on the
state left by the previous companies (strict sequential order), whatever
the earlier runs' outcomes were — so one company's failure never prevents
the later companies from being processed. -/
theorem c8_batch_driver [DecidableEq K] (keyOf : α → K) (payloadOf : α → β)
    (envs : ℕ → SyncEnv α) (empresas : List (ℕ × String))
    (table : List (MirrorRow K β)) (now : ℕ) :
    (sincronizarTodasEmpresas keyOf payloadOf envs empresas table now).1.length =
      empresas.length ∧
    (∀ j (hj : j < empresas.length),
      (sincronizarTodasEmpresas keyOf payloadOf envs empresas table now).1.get
          ⟨j, by simp only [sincronizarTodasEmpresas, batchLoop_length]; exact hj⟩ =
        (sincronizarPorEmpresa keyOf payloadOf (envs j)
          (batchTableAt keyOf payloadOf envs now empresas 0 table j)
          (empresas.get ⟨j, hj⟩).1 (empresas.get ⟨j, hj⟩).2 now).result ∧
      ((sincronizarTodasEmpresas keyOf payloadOf envs empresas table now).1.get
          ⟨j, by simp only [sincronizarTodasEmpresas, batchLoop_length]; exact hj⟩).idSistema =
        (empresas.get ⟨j, hj⟩).1 ∧
      ((sincronizarTodasEmpresas keyOf payloadOf envs empresas table now).1.get
          ⟨j, by simp only [sincronizarTodasEmpresas, batchLoop_length]; exact hj⟩).empresa =
        (empresas.get ⟨j, hj⟩).2) := by
  refine ⟨batchLoop_length keyOf payloadOf envs now empresas 0 table, ?_⟩
  intro j hj
  have hget := batchLoop_get keyOf payloadOf envs now empresas 0 table j hj
  rw [Nat.zero_add] at hget
  refine ⟨hget, ?_, ?_⟩
  · simp only [sincronizarTodasEmpresas]
    rw [hget]
    exact (run_identity keyOf payloadOf (envs j) _ _ _ now).1
  · simp only [sincronizarTodasEmpresas]
    rw [hget]
    exact (run_identity keyOf payloadOf (envs j) _ _ _ now).2

/-- Witness for `c8_batch_driver`: two companies, the first run fails. -/
theorem c8_witness :
    (sincronizarTodasEmpresas excecaoKey excecaoPayloadOf
        (fun _ => ⟨.error "down", .ok [], .ok (), none, none, fun _ => false⟩)
        [(1, "A"), (2, "B")] [] 0).1.length = 2 ∧
    ((sincronizarTodasEmpresas excecaoKey excecaoPayloadOf
        (fun _ => ⟨.error "down", .ok [], .ok (), none, none, fun _ => false⟩)
        [(1, "A"), (2, "B")] [] 0).1.get
      ⟨1, by simp only [sincronizarTodasEmpresas, batchLoop_length]; decide⟩).idSistema = 2 := by
  have h := c8_batch_driver excecaoKey excecaoPayloadOf
    (fun _ => ⟨.error "down", .ok [], .ok (), none, none, fun _ => false⟩)
    [(1, "A"), (2, "B")] [] 0
  refine ⟨by simpa using h.1, ?_⟩
  have h2 := (h.2 1 (by decide)).2.1
  simpa using h2

/-! ## Claim C6: the numeric clamp -/

/-- **C6.** With the default `maxDigits = 15` the computed limit is
`10^13 - 0.01`; inputs above the limit in magnitude are clamped to
`±limit` with the sign preserved, in-range inputs pass through unchanged,
and `undefined`/`null`/`NaN` yield `null`. -/
theorem c6_numeric_clamp :
    (∀ v : ℚ, |v| > 10 ^ 13 - 1 / 100 →
      validarValorNumerico (.num v) =
        some (if v > 0 then 10 ^ 13 - 1 / 100 else -(10 ^ 13 - 1 / 100))) ∧
    (∀ v : ℚ, |v| ≤ 10 ^ 13 - 1 / 100 → validarValorNumerico (.num v) = some v) ∧
    validarValorNumerico .undef = none ∧
    validarValorNumerico .nullV = none ∧
    validarValorNumerico .nan = none := by
  have h13 : ((15 : ℕ) - 2) = 13 := rfl
  refine ⟨?_, ?_, rfl, rfl, rfl⟩
  · intro v hv
    simp only [validarValorNumerico, h13]
    rw [if_pos hv]
  · intro v hv
    simp only [validarValorNumerico, h13]
    rw [if_neg (not_lt.mpr hv)]

/-- Witness for `c6_numeric_clamp`: an overflowing and an in-range input. -/
theorem c6_witness :
    validarValorNumerico (.num 100000000000000) = some (10 ^ 13 - 1 / 100) ∧
    validarValorNumerico (.num 5) = some 5 := by
  have h := c6_numeric_clamp
  have h1 : |(100000000000000 : ℚ)| > 10 ^ 13 - 1 / 100 := by norm_num
  have h2 : |(5 : ℚ)| ≤ 10 ^ 13 - 1 / 100 := by norm_num
  refine ⟨?_, h.2.1 5 h2⟩
  rw [h.1 100000000000000 h1, if_pos (by norm_num)]

/-! ## Claim C10: falsy-to-NULL coercion of the optional columns -/

/-- **C10, counterexample.** Not every optional business field is bound
through `value || null`: the financial engine's `VLRDESDOB` goes through
`validarValorNumerico`, so a genuine remote `0` is bound as `0`, not as
SQL `NULL`. -/
theorem c10_counterexample :
    (⟨1, none, none, some 0, none, none, none, none, none, none, none, none, none,
        none⟩ : Financeiro).VLRDESDOB = some 0 ∧
    (financeiroPayloadOf ⟨1, none, none, some 0, none, none, none, none, none, none,
        none, none, none, none⟩).VLRDESDOB = some 0 ∧
    (financeiroPayloadOf ⟨1, none, none, some 0, none, none, none, none, none, none,
        none, none, none, none⟩).VLRDESDOB ≠ none := by
  have hz : validarValorNumerico (numValOfOpt (some 0)) = some 0 := by
    norm_num [validarValorNumerico, numValOfOpt]
  refine ⟨rfl, hz, ?_⟩
  rw [show (financeiroPayloadOf ⟨1, none, none, some 0, none, none, none, none, none,
      none, none, none, none, none⟩).VLRDESDOB =
    validarValorNumerico (numValOfOpt (some 0)) from rfl, hz]
  simp

/-- **C10 (amended).** The fields the engines bind through `value || null`
— all five optional columns of the price-exception engine, and the
`CODPARC`, `CODEMP`, `PROVISAO`, `RECDESP`, `NOSSONUM`, `CODCTABCOINT`,
`HISTORICO`, `NUMNOTA` columns of the financial engine — are bound as SQL
`NULL` exactly when the decoded value is falsy (`undefined`/`null`, `0`
for numbers, `""` for strings), in both the `INSERT` and the `UPDATE`
(both statements bind the same coerced payload).  The financial engine's
`VLRDESDOB` and `VLRBAIXA` instead go through `validarValorNumerico`
(persisting a genuine `0` as `0`), and its three date columns go through
`parseDataSankhya`. -/
theorem c10_null_coercion_amended :
    (∀ v : Option ℚ, jsOrNullNum v = none ↔ v = none ∨ v = some 0) ∧
    (∀ s : Option String, jsOrNullStr s = none ↔ s = none ∨ s = some "") ∧
    (∀ e : ExcecaoPreco,
      (excecaoPayloadOf e).VLRANT = jsOrNullNum e.VLRANT ∧
      (excecaoPayloadOf e).VARIACAO = jsOrNullNum e.VARIACAO ∧
      (excecaoPayloadOf e).TIPO = jsOrNullStr e.TIPO ∧
      (excecaoPayloadOf e).VLRVENDA = jsOrNullNum e.VLRVENDA ∧
      (excecaoPayloadOf e).CONTROLE = jsOrNullStr e.CONTROLE) ∧
    (∀ f : Financeiro,
      (financeiroPayloadOf f).CODPARC = jsOrNullNum f.CODPARC ∧
      (financeiroPayloadOf f).CODEMP = jsOrNullNum f.CODEMP ∧
      (financeiroPayloadOf f).PROVISAO = jsOrNullStr f.PROVISAO ∧
      (financeiroPayloadOf f).RECDESP = jsOrNullNum f.RECDESP ∧
      (financeiroPayloadOf f).NOSSONUM = jsOrNullStr f.NOSSONUM ∧
      (financeiroPayloadOf f).CODCTABCOINT = jsOrNullNum f.CODCTABCOINT ∧
      (financeiroPayloadOf f).HISTORICO = jsOrNullStr f.HISTORICO ∧
      (financeiroPayloadOf f).NUMNOTA = jsOrNullNum f.NUMNOTA ∧
      (financeiroPayloadOf f).VLRDESDOB = validarValorNumerico (numValOfOpt f.VLRDESDOB) ∧
      (financeiroPayloadOf f).VLRBAIXA = validarValorNumerico (numValOfOpt f.VLRBAIXA) ∧
      (financeiroPayloadOf f).DTVENC = parseDataSankhya f.DTVENC ∧
      (financeiroPayloadOf f).DTNEG = parseDataSankhya f.DTNEG ∧
      (financeiroPayloadOf f).DHBAIXA = parseDataSankhya f.DHBAIXA) ∧
    validarValorNumerico (numValOfOpt (some 0)) = some 0 ∧
    (∀ (t : List (MirrorRow (ℚ × ℚ × ℚ) ExcecaoPayload)) (S : ℕ) (e : ExcecaoPreco)
      (now : ℕ), ∀ r ∈ (upsertOne excecaoKey excecaoPayloadOf t S e now).1,
        r ∈ t ∨ r.payload = excecaoPayloadOf e) ∧
    (∀ (t : List (MirrorRow ℚ FinanceiroPayload)) (S : ℕ) (f : Financeiro)
      (now : ℕ), ∀ r ∈ (upsertOne financeiroKey financeiroPayloadOf t S f now).1,
        r ∈ t ∨ r.payload = financeiroPayloadOf f) := by
  refine ⟨?_, ?_, fun e => ⟨rfl, rfl, rfl, rfl, rfl⟩,
    fun f => ⟨rfl, rfl, rfl, rfl, rfl, rfl, rfl, rfl, rfl, rfl, rfl, rfl, rfl⟩,
    by norm_num [validarValorNumerico, numValOfOpt],
    fun t S e now => upsertOne_payload excecaoKey excecaoPayloadOf t S e now,
    fun t S f now => upsertOne_payload financeiroKey financeiroPayloadOf t S f now⟩
  · intro v
    cases v with
    | none => simp [jsOrNullNum]
    | some q => by_cases hq : q = 0 <;> simp [jsOrNullNum, hq]
  · intro s
    cases s with
    | none => simp [jsOrNullStr]
    | some z => by_cases hz : z = "" <;> simp [jsOrNullStr, hz]

/-- Witness for `c10_null_coercion_amended` at a concrete record whose
optional fields hold the falsy values `0` and `""`. -/
theorem c10_witness :
    jsOrNullNum (some 0) = none ∧
    jsOrNullStr (some "") = none ∧
    ((⟨1, ((1 : ℚ), (1 : ℚ), (1 : ℚ)),
        excecaoPayloadOf ⟨1, some 0, none, 1, some "", none, 1, none⟩, true, 0, 0⟩ :
        MirrorRow (ℚ × ℚ × ℚ) ExcecaoPayload) ∈
          ([] : List (MirrorRow (ℚ × ℚ × ℚ) ExcecaoPayload)) ∨
      (⟨1, ((1 : ℚ), (1 : ℚ), (1 : ℚ)),
        excecaoPayloadOf ⟨1, some 0, none, 1, some "", none, 1, none⟩, true, 0, 0⟩ :
        MirrorRow (ℚ × ℚ × ℚ) ExcecaoPayload).payload =
        excecaoPayloadOf ⟨1, some 0, none, 1, some "", none, 1, none⟩) := by
  have h := c10_null_coercion_amended
  refine ⟨(h.1 (some 0)).mpr (Or.inr rfl), (h.2.1 (some "")).mpr (Or.inr rfl), ?_⟩
  exact h.2.2.2.2.2.1 [] 1 ⟨1, some 0, none, 1, some "", none, 1, none⟩ 0 _ (by decide)

/-! ## Claim C4: the positional field decoder -/

theorem objSet_get_self (o : List (String × String)) (k v : String) :
    objGet (objSet o k v) k = some v := by
  induction o with
  | nil =>
    rw [objSet, objGet, if_pos rfl]
  | cons p rest ih =>
    obtain ⟨pk, pv⟩ := p
    by_cases hp : pk = k
    · rw [objSet, if_pos hp, objGet, if_pos rfl]
    · rw [objSet, if_neg hp, objGet, if_neg hp]
      exact ih

theorem objSet_get_other (o : List (String × String)) (k v k' : String)
    (hne : k' ≠ k) :
    objGet (objSet o k v) k' = objGet o k' := by
  induction o with
  | nil =>
    show objGet [(k, v)] k' = none
    rw [objGet, if_neg fun h => hne h.symm]
    rfl
  | cons p rest ih =>
    obtain ⟨pk, pv⟩ := p
    by_cases hp : pk = k
    · rw [objSet, if_pos hp, objGet, if_neg fun h => hne h.symm, objGet,
        if_neg fun h => hne ((hp.symm.trans h).symm)]
    · rw [objSet, if_neg hp, objGet, objGet]
      by_cases hk : pk = k'
      · rw [if_pos hk, if_pos hk]
      · rw [if_neg hk, if_neg hk]
        exact ih

theorem decodeLoop_untouched (fieldNames : List String) (raw : RawEntity) :
    ∀ (is : List ℕ) (o : List (String × String)) (k : String),
    (∀ j ∈ is, fieldNames.getD j "" ≠ k) →
    objGet (decodeLoop fieldNames raw is o) k = objGet o k := by
  intro is
  induction is with
  | nil => intro o k _; rfl
  | cons j is' ih =>
    intro o k h
    have hj : fieldNames.getD j "" ≠ k := h j (List.mem_cons_self j is')
    have h' : ∀ j' ∈ is', fieldNames.getD j' "" ≠ k :=
      fun j' hj' => h j' (List.mem_cons_of_mem j hj')
    cases hr : rawGet raw (fKey j) with
    | none =>
      simp only [decodeLoop, hr]
      exact ih o k h'
    | some w =>
      simp only [decodeLoop, hr]
      rw [ih _ k h', objSet_get_other _ _ _ _ (Ne.symm hj)]

theorem decodeLoop_lookup (fieldNames : List String) (raw : RawEntity) :
    ∀ (is : List ℕ) (o : List (String × String)) (i : ℕ), i ∈ is →
    (∀ j ∈ is, j ≠ i → fieldNames.getD j "" ≠ fieldNames.getD i "") →
    objGet (decodeLoop fieldNames raw is o) (fieldNames.getD i "") =
      match rawGet raw (fKey i) with
      | some w => some w.dollar
      | none => objGet o (fieldNames.getD i "") := by
  intro is
  induction is with
  | nil =>
    intro o i hi
    exact absurd hi (by simp)
  | cons j is' ih =>
    intro o i hi hdist
    have hdist' : ∀ j' ∈ is', j' ≠ i → fieldNames.getD j' "" ≠ fieldNames.getD i "" :=
      fun j' hj' => hdist j' (List.mem_cons_of_mem j hj')
    by_cases hji : j = i
    · subst hji
      cases hr : rawGet raw (fKey j) with
      | some w =>
        simp only [decodeLoop, hr]
        by_cases hmem : j ∈ is'
        · rw [ih _ j hmem hdist', hr]
        · rw [decodeLoop_untouched fieldNames raw is' _ _
            (fun j' hj' => hdist' j' hj' (fun he => hmem (he ▸ hj'))),
            objSet_get_self]
      | none =>
        simp only [decodeLoop, hr]
        by_cases hmem : j ∈ is'
        · rw [ih o j hmem hdist', hr]
        · rw [decodeLoop_untouched fieldNames raw is' o _
            (fun j' hj' => hdist' j' hj' (fun he => hmem (he ▸ hj')))]
    · have hi' : i ∈ is' := by
        rcases List.mem_cons.mp hi with rfl | hmem
        · exact absurd rfl (Ne.symm hji)
        · exact hmem
      have hnames : fieldNames.getD j "" ≠ fieldNames.getD i "" :=
        hdist j (List.mem_cons_self j is') hji
      cases hr : rawGet raw (fKey j) with
      | none =>
        simp only [decodeLoop, hr]
        exact ih o i hi' hdist'
      | some w =>
        simp only [decodeLoop, hr]
        rw [ih _ i hi' hdist']
        cases hri : rawGet raw (fKey i) with
        | some w' => rfl
        | none =>
          exact objSet_get_other o (fieldNames.getD j "") w.dollar
            (fieldNames.getD i "") (Ne.symm hnames)

/-- **C4.** For every raw entity and declared index `i` (with pairwise
distinct declared names), the decoder's output holds, under the `i`-th
declared name, exactly the `$`-payload stored under positional key `f<i>`
— in particular the name is absent from the output (no placeholder) when
position `f<i>` is absent — and a payload carrying a single entity object
decodes identically to the singleton collection. -/
theorem c4_field_decoder (fieldNames : List String) (raw : RawEntity)
    (hnd : fieldNames.Nodup) (i : ℕ) (hi : i < fieldNames.length) :
    (objGet (decodeEntity fieldNames raw) (fieldNames.get ⟨i, hi⟩) =
      (rawGet raw (fKey i)).map WrappedVal.dollar) ∧
    (∀ (names : List String) (e : RawEntity),
      decodeEntities names (.single e) = decodeEntities names (.collection [e])) := by
  refine ⟨?_, fun names e => rfl⟩
  have hgetD : ∀ (j : ℕ) (hj : j < fieldNames.length),
      fieldNames.getD j "" = fieldNames.get ⟨j, hj⟩ := by
    intro j hj
    simp [List.getD_eq_getElem?_getD, List.getElem?_eq_getElem hj]
  rw [← hgetD i hi, decodeEntity,
    decodeLoop_lookup fieldNames raw (List.range fieldNames.length) [] i
      (List.mem_range.mpr hi)
      (fun j hj hne => by
        have hjlt : j < fieldNames.length := List.mem_range.mp hj
        rw [hgetD i hi, hgetD j hjlt]
        intro he
        have : (⟨j, hjlt⟩ : Fin fieldNames.length) = ⟨i, hi⟩ := hnd.get_inj_iff.mp he
        exact hne (by simpa using congrArg Fin.val this))]
  cases hr : rawGet raw (fKey i) with
  | some w => rfl
  | none => rfl

/-- Witness for `c4_field_decoder`: two declared fields, position `f1`
present, position `f0` absent. -/
theorem c4_witness :
    objGet (decodeEntity ["CODPROD", "VLRANT"] [("f1", ⟨"7.5"⟩)]) "VLRANT" = some "7.5" ∧
    objGet (decodeEntity ["CODPROD", "VLRANT"] [("f1", ⟨"7.5"⟩)]) "CODPROD" = none := by
  have h0 := (c4_field_decoder ["CODPROD", "VLRANT"] [("f1", ⟨"7.5"⟩)] (by decide) 0
    (by decide)).1
  have h1 := (c4_field_decoder ["CODPROD", "VLRANT"] [("f1", ⟨"7.5"⟩)] (by decide) 1
    (by decide)).1
  exact ⟨h1, h0⟩

/-! ## Claim C5: `parseDataSankhya` -/

theorem digitVal_digitChar (d : ℕ) (hd : d < 10) : digitVal (digitChar d) = d := by
  interval_cases d <;> decide

theorem digitChar_isDigit (d : ℕ) (hd : d < 10) : (digitChar d).isDigit = true := by
  interval_cases d <;> decide

theorem isDigit_ne (c : Char) (hc : c.isDigit = true) :
    c ≠ '-' ∧ c ≠ '+' ∧ c ≠ '/' ∧ c ≠ ':' ∧ c ≠ ' ' ∧ isJsSpace c = false := by
  have h1 : c ≠ '-' := fun heq => by rw [heq] at hc; exact absurd hc (by decide)
  have h2 : c ≠ '+' := fun heq => by rw [heq] at hc; exact absurd hc (by decide)
  have h3 : c ≠ '/' := fun heq => by rw [heq] at hc; exact absurd hc (by decide)
  have h4 : c ≠ ':' := fun heq => by rw [heq] at hc; exact absurd hc (by decide)
  have h5 : c ≠ ' ' := fun heq => by rw [heq] at hc; exact absurd hc (by decide)
  have h6 : c ≠ '\t' := fun heq => by rw [heq] at hc; exact absurd hc (by decide)
  have h7 : c ≠ '\n' := fun heq => by rw [heq] at hc; exact absurd hc (by decide)
  have h8 : c ≠ '\r' := fun heq => by rw [heq] at hc; exact absurd hc (by decide)
  exact ⟨h1, h2, h3, h4, h5, by simp [isJsSpace, h5, h6, h7, h8]⟩

theorem takeWhile_all (p : Char → Bool) :
    ∀ (cs : List Char), (∀ c ∈ cs, p c = true) → cs.takeWhile p = cs := by
  intro cs
  induction cs with
  | nil => intro _; rfl
  | cons c cs' ih =>
    intro h
    rw [List.takeWhile_cons, h c (List.mem_cons_self c cs')]
    simp only [if_true]
    rw [ih fun c' hc' => h c' (List.mem_cons_of_mem c hc')]

theorem parseIntDigits_all (cs : List Char) (hne : cs ≠ [])
    (hall : ∀ c ∈ cs, c.isDigit = true) :
    parseIntDigits cs = some (cs.foldl (fun a c => 10 * a + digitVal c) 0) := by
  have h1 : cs.takeWhile Char.isDigit = cs := takeWhile_all Char.isDigit cs hall
  simp only [parseIntDigits, h1]
  rw [if_neg (by simpa using hne)]

theorem jsParseInt_digits (cs : List Char) (hne : cs ≠ [])
    (hall : ∀ c ∈ cs, c.isDigit = true) :
    jsParseInt cs =
      some ((cs.foldl (fun a c => 10 * a + digitVal c) 0 : ℕ) : ℤ) := by
  cases cs with
  | nil => exact absurd rfl hne
  | cons c cs' =>
    have hc := hall c (List.mem_cons_self c cs')
    obtain ⟨h1, h2, -, -, -, -⟩ := isDigit_ne c hc
    rw [jsParseInt, if_neg h1, if_neg h2, parseIntDigits_all (c :: cs') hne hall]
    rfl

theorem natToCharsAux_eq (fuel : ℕ) :
    ∀ n : ℕ, n ≤ fuel → natToCharsAux fuel n = (Nat.digits 10 n).reverse.map digitChar := by
  induction fuel with
  | zero =>
    intro n hn
    interval_cases n
    simp [natToCharsAux]
  | succ fuel ih =>
    intro n hn
    cases n with
    | zero => simp [natToCharsAux]
    | succ n =>
      rw [natToCharsAux, ih ((n + 1) / 10) (by omega),
        Nat.digits_def' (by norm_num : 1 < 10) (Nat.succ_pos n)]
      simp [List.reverse_cons]

theorem natToChars_eq (n : ℕ) (hn : n ≠ 0) :
    natToChars n = (Nat.digits 10 n).reverse.map digitChar := by
  rw [natToChars, if_neg hn]
  exact natToCharsAux_eq n n le_rfl

theorem natToChars_all_digits (n : ℕ) : ∀ c ∈ natToChars n, c.isDigit = true := by
  by_cases hn : n = 0
  · subst hn
    intro c hc
    simp [natToChars] at hc
    subst hc
    decide
  · rw [natToChars_eq n hn]
    intro c hc
    obtain ⟨d, hd, rfl⟩ := List.mem_map.mp hc
    exact digitChar_isDigit d
      (Nat.digits_lt_base (by norm_num) (List.mem_reverse.mp hd))

theorem natToChars_ne_nil (n : ℕ) : natToChars n ≠ [] := by
  by_cases hn : n = 0
  · subst hn
    simp [natToChars]
  · rw [natToChars_eq n hn]
    simp [Nat.digits_ne_nil_iff_ne_zero.mpr hn]

theorem foldl_digits :
    ∀ (l : List ℕ), (∀ d ∈ l, d < 10) →
    ((l.reverse.map digitChar).foldl (fun a c => 10 * a + digitVal c) 0) =
      Nat.ofDigits 10 l := by
  intro l
  induction l with
  | nil => intro _; rfl
  | cons d l' ih =>
    intro hl
    rw [List.reverse_cons, List.map_append, List.foldl_append,
      ih fun d' hd' => hl d' (List.mem_cons_of_mem d hd')]
    simp only [List.map_cons, List.map_nil, List.foldl_cons, List.foldl_nil]
    rw [digitVal_digitChar d (hl d (List.mem_cons_self d l')), Nat.ofDigits_cons]
    ring

theorem foldl_natToChars (n : ℕ) :
    (natToChars n).foldl (fun a c => 10 * a + digitVal c) 0 = n := by
  by_cases hn : n = 0
  · subst hn
    decide
  · rw [natToChars_eq n hn,
      foldl_digits _ (fun d hd => Nat.digits_lt_base (by norm_num) hd),
      Nat.ofDigits_digits]

theorem foldl_zero_cons (cs : List Char) :
    List.foldl (fun a c => 10 * a + digitVal c) 0 ('0' :: cs) =
      List.foldl (fun a c => 10 * a + digitVal c) 0 cs := by
  rw [List.foldl_cons, show (10 * 0 + digitVal '0') = 0 from by decide]

theorem jsParseInt_natToChars (n : ℕ) : jsParseInt (natToChars n) = some (n : ℤ) := by
  rw [jsParseInt_digits (natToChars n) (natToChars_ne_nil n) (natToChars_all_digits n),
    foldl_natToChars]

theorem pad2_all_digits (n : ℕ) : ∀ c ∈ pad2 n, c.isDigit = true := by
  by_cases h : n < 10
  · rw [pad2, if_pos h]
    intro c hc
    rcases List.mem_cons.mp hc with rfl | hc
    · decide
    · rcases List.mem_cons.mp hc with rfl | hc
      · exact digitChar_isDigit n h
      · simp at hc
  · rw [pad2, if_neg h]
    exact natToChars_all_digits n

theorem pad2_ne_nil (n : ℕ) : pad2 n ≠ [] := by
  by_cases h : n < 10
  · rw [pad2, if_pos h]
    simp
  · rw [pad2, if_neg h]
    exact natToChars_ne_nil n

theorem pad4_all_digits (n : ℕ) : ∀ c ∈ pad4 n, c.isDigit = true := by
  rw [pad4]
  split
  · intro c hc
    rcases List.mem_cons.mp hc with rfl | hc
    · decide
    rcases List.mem_cons.mp hc with rfl | hc
    · decide
    rcases List.mem_cons.mp hc with rfl | hc
    · decide
    rcases List.mem_cons.mp hc with rfl | hc
    · exact digitChar_isDigit n (by assumption)
    · simp at hc
  · split
    · intro c hc
      rcases List.mem_cons.mp hc with rfl | hc
      · decide
      rcases List.mem_cons.mp hc with rfl | hc
      · decide
      · exact natToChars_all_digits n c hc
    · split
      · intro c hc
        rcases List.mem_cons.mp hc with rfl | hc
        · decide
        · exact natToChars_all_digits n c hc
      · exact natToChars_all_digits n

theorem pad4_ne_nil (n : ℕ) : pad4 n ≠ [] := by
  rw [pad4]
  split
  · simp
  · split
    · simp
    · split
      · simp
      · exact natToChars_ne_nil n

theorem jsParseInt_pad2 (n : ℕ) : jsParseInt (pad2 n) = some (n : ℤ) := by
  by_cases h : n < 10
  · rw [pad2, if_pos h]
    interval_cases n <;> decide
  · rw [pad2, if_neg h]
    exact jsParseInt_natToChars n

theorem jsParseInt_pad4 (n : ℕ) : jsParseInt (pad4 n) = some (n : ℤ) := by
  rw [pad4]
  split
  · interval_cases n <;> decide
  · split
    · rw [jsParseInt_digits _ (by simp)
        (by
          intro c hc
          rcases List.mem_cons.mp hc with rfl | hc
          · decide
          rcases List.mem_cons.mp hc with rfl | hc
          · decide
          · exact natToChars_all_digits n c hc),
        foldl_zero_cons, foldl_zero_cons, foldl_natToChars]
    · split
      · rw [jsParseInt_digits _ (by simp)
          (by
            intro c hc
            rcases List.mem_cons.mp hc with rfl | hc
            · decide
            · exact natToChars_all_digits n c hc),
          foldl_zero_cons, foldl_natToChars]
      · exact jsParseInt_natToChars n

theorem splitChars_no_sep (sep : Char) :
    ∀ (cs : List Char), (∀ c ∈ cs, c ≠ sep) → splitChars sep cs = [cs] := by
  intro cs
  induction cs with
  | nil => intro _; rfl
  | cons c cs' ih =>
    intro h
    rw [splitChars, if_neg (h c (List.mem_cons_self c cs')),
      ih fun c' hc' => h c' (List.mem_cons_of_mem c hc')]

theorem splitChars_append (sep : Char) (ys : List Char) :
    ∀ (xs : List Char), (∀ c ∈ xs, c ≠ sep) →
    splitChars sep (xs ++ sep :: ys) = xs :: splitChars sep ys := by
  intro xs
  induction xs with
  | nil =>
    intro _
    simp only [List.nil_append]
    rw [splitChars, if_pos rfl]
  | cons x xs' ih =>
    intro h
    rw [List.cons_append, splitChars, if_neg (h x (List.mem_cons_self x xs')),
      ih fun c hc => h c (List.mem_cons_of_mem x hc)]

theorem dropWhile_all_false (p : Char → Bool) (cs : List Char)
    (h : ∀ c ∈ cs, p c = false) : cs.dropWhile p = cs := by
  cases cs with
  | nil => rfl
  | cons c cs' =>
    rw [List.dropWhile_cons, h c (List.mem_cons_self c cs')]
    simp

theorem trimChars_id (cs : List Char) (h : ∀ c ∈ cs, isJsSpace c = false) :
    trimChars cs = cs := by
  rw [trimChars, dropWhile_all_false _ cs h,
    dropWhile_all_false _ cs.reverse (fun c hc => h c (List.mem_reverse.mp hc)),
    List.reverse_reverse]

theorem renderDate_chars (d m y : ℕ) :
    ∀ c ∈ renderDate d m y, c.isDigit = true ∨ c = '/' := by
  intro c hc
  rw [renderDate] at hc
  rcases List.mem_append.mp hc with hc | hc
  · exact Or.inl (pad2_all_digits d c hc)
  · rcases List.mem_cons.mp hc with rfl | hc
    · exact Or.inr rfl
    rcases List.mem_append.mp hc with hc | hc
    · exact Or.inl (pad2_all_digits m c hc)
    · rcases List.mem_cons.mp hc with rfl | hc
      · exact Or.inr rfl
      · exact Or.inl (pad4_all_digits y c hc)

theorem renderTime_chars (h mi s : ℕ) :
    ∀ c ∈ renderTime h mi s, c.isDigit = true ∨ c = ':' := by
  intro c hc
  rw [renderTime] at hc
  rcases List.mem_append.mp hc with hc | hc
  · exact Or.inl (pad2_all_digits h c hc)
  · rcases List.mem_cons.mp hc with rfl | hc
    · exact Or.inr rfl
    rcases List.mem_append.mp hc with hc | hc
    · exact Or.inl (pad2_all_digits mi c hc)
    · rcases List.mem_cons.mp hc with rfl | hc
      · exact Or.inr rfl
      · exact Or.inl (pad2_all_digits s c hc)

theorem renderDate_no_space (d m y : ℕ) :
    ∀ c ∈ renderDate d m y, isJsSpace c = false := by
  intro c hc
  rcases renderDate_chars d m y c hc with h | rfl
  · exact (isDigit_ne c h).2.2.2.2.2
  · decide

theorem renderDate_ne_space (d m y : ℕ) :
    ∀ c ∈ renderDate d m y, c ≠ ' ' := by
  intro c hc heq
  have := renderDate_no_space d m y c hc
  rw [heq] at this
  exact absurd this (by decide)

theorem renderDate_ne_slash_parts (d m y : ℕ) :
    (∀ c ∈ pad2 d, c ≠ '/') ∧ (∀ c ∈ pad2 m, c ≠ '/') ∧ (∀ c ∈ pad4 y, c ≠ '/') :=
  ⟨fun c hc => (isDigit_ne c (pad2_all_digits d c hc)).2.2.1,
   fun c hc => (isDigit_ne c (pad2_all_digits m c hc)).2.2.1,
   fun c hc => (isDigit_ne c (pad4_all_digits y c hc)).2.2.1⟩

theorem splitChars_renderDate (d m y : ℕ) :
    splitChars '/' (renderDate d m y) = [pad2 d, pad2 m, pad4 y] := by
  obtain ⟨h1, h2, h3⟩ := renderDate_ne_slash_parts d m y
  rw [renderDate, splitChars_append '/' _ (pad2 d) h1,
    splitChars_append '/' _ (pad2 m) h2, splitChars_no_sep '/' (pad4 y) h3]

theorem splitChars_renderTime (h mi s : ℕ) :
    splitChars ':' (renderTime h mi s) = [pad2 h, pad2 mi, pad2 s] := by
  rw [renderTime,
    splitChars_append ':' _ (pad2 h)
      (fun c hc => (isDigit_ne c (pad2_all_digits h c hc)).2.2.2.1),
    splitChars_append ':' _ (pad2 mi)
      (fun c hc => (isDigit_ne c (pad2_all_digits mi c hc)).2.2.2.1),
    splitChars_no_sep ':' (pad2 s)
      (fun c hc => (isDigit_ne c (pad2_all_digits s c hc)).2.2.2.1)]

theorem jsOrChars_some (cs dflt : List Char) (h : cs ≠ []) :
    jsOrChars (some cs) dflt = cs := by
  simp only [jsOrChars]
  rw [if_neg (by simpa using h)]

theorem falsyChars_some (cs : List Char) (h : cs ≠ []) :
    falsyChars (some cs) = false := by
  simp only [falsyChars]
  simpa using h

theorem renderDate_ne_nil (d m y : ℕ) : renderDate d m y ≠ [] := by
  rw [renderDate]
  simp [pad2_ne_nil d]

theorem renderTime_ne_nil (h mi s : ℕ) : renderTime h mi s ≠ [] := by
  rw [renderTime]
  simp [pad2_ne_nil h]

theorem renderTime_ne_space (h mi s : ℕ) :
    ∀ c ∈ renderTime h mi s, c ≠ ' ' := by
  intro c hc
  rcases renderTime_chars h mi s c hc with hd | rfl
  · exact (isDigit_ne c hd).2.2.2.2.1
  · decide

theorem renderDateTime_no_space_parts (d m y h mi s : ℕ) :
    splitChars ' ' (renderDateTime d m y h mi s) =
      [renderDate d m y, renderTime h mi s] := by
  rw [renderDateTime,
    splitChars_append ' ' (renderTime h mi s) (renderDate d m y)
      (renderDate_ne_space d m y),
    splitChars_no_sep ' ' (renderTime h mi s) (renderTime_ne_space h mi s)]

theorem parseDataChars_renderDate (d m y : ℕ) :
    parseDataChars (renderDate d m y) =
      mkJSDate (some (y : ℤ)) (some ((m : ℤ) - 1)) (some (d : ℤ))
        (some 0) (some 0) (some 0) := by
  simp only [parseDataChars]
  rw [trimChars_id _ (renderDate_no_space d m y),
    splitChars_no_sep ' ' _ (renderDate_ne_space d m y)]
  rw [show ([renderDate d m y] : List (List Char)).headD [] = renderDate d m y from rfl]
  rw [show ([renderDate d m y] : List (List Char))[1]? = none from rfl]
  rw [show jsOrChars none ['0', '0', ':', '0', '0', ':', '0', '0'] =
    ['0', '0', ':', '0', '0', ':', '0', '0'] from rfl]
  rw [splitChars_renderDate d m y]
  rw [show ([pad2 d, pad2 m, pad4 y] : List (List Char))[0]? = some (pad2 d) from rfl,
    show ([pad2 d, pad2 m, pad4 y] : List (List Char))[1]? = some (pad2 m) from rfl,
    show ([pad2 d, pad2 m, pad4 y] : List (List Char))[2]? = some (pad4 y) from rfl]
  rw [falsyChars_some _ (pad2_ne_nil d), falsyChars_some _ (pad2_ne_nil m),
    falsyChars_some _ (pad4_ne_nil y)]
  rw [if_neg (by simp)]
  rw [show (some (pad4 y)).getD ([] : List Char) = pad4 y from rfl,
    show (some (pad2 m)).getD ([] : List Char) = pad2 m from rfl,
    show (some (pad2 d)).getD ([] : List Char) = pad2 d from rfl]
  rw [jsParseInt_pad4 y, jsParseInt_pad2 m, jsParseInt_pad2 d]
  rfl

theorem dropWhile_append_false (p : Char → Bool) (rest : List Char) :
    ∀ (xs : List Char), xs ≠ [] → (∀ c ∈ xs, p c = false) →
    (xs ++ rest).dropWhile p = xs ++ rest := by
  intro xs hne h
  cases xs with
  | nil => exact absurd rfl hne
  | cons c xs' =>
    rw [List.cons_append, List.dropWhile_cons, h c (List.mem_cons_self c xs')]
    simp

theorem renderTime_no_space (h mi s : ℕ) :
    ∀ c ∈ renderTime h mi s, isJsSpace c = false := by
  intro c hc
  rcases renderTime_chars h mi s c hc with hd | rfl
  · exact (isDigit_ne c hd).2.2.2.2.2
  · decide

theorem trimChars_renderDateTime (d m y h mi s : ℕ) :
    trimChars (renderDateTime d m y h mi s) = renderDateTime d m y h mi s := by
  rw [trimChars, renderDateTime,
    dropWhile_append_false _ _ _ (renderDate_ne_nil d m y) (renderDate_no_space d m y),
    List.reverse_append, List.reverse_cons, List.append_assoc,
    dropWhile_append_false _ _ (renderTime h mi s).reverse
      (by simp [renderTime_ne_nil h mi s])
      (fun c hc => renderTime_no_space h mi s c (List.mem_reverse.mp hc)),
    ← List.append_assoc, ← List.reverse_cons, ← List.reverse_append,
    List.reverse_reverse]

theorem parseDataChars_renderDateTime (d m y h mi s : ℕ) :
    parseDataChars (renderDateTime d m y h mi s) =
      mkJSDate (some (y : ℤ)) (some ((m : ℤ) - 1)) (some (d : ℤ))
        (some (h : ℤ)) (some (mi : ℤ)) (some (s : ℤ)) := by
  simp only [parseDataChars]
  rw [trimChars_renderDateTime d m y h mi s]
  rw [renderDateTime_no_space_parts d m y h mi s]
  rw [show ([renderDate d m y, renderTime h mi s] : List (List Char)).headD [] =
    renderDate d m y from rfl]
  rw [show ([renderDate d m y, renderTime h mi s] : List (List Char))[1]? =
    some (renderTime h mi s) from rfl]
  rw [jsOrChars_some _ _ (renderTime_ne_nil h mi s)]
  rw [splitChars_renderDate d m y]
  rw [show ([pad2 d, pad2 m, pad4 y] : List (List Char))[0]? = some (pad2 d) from rfl,
    show ([pad2 d, pad2 m, pad4 y] : List (List Char))[1]? = some (pad2 m) from rfl,
    show ([pad2 d, pad2 m, pad4 y] : List (List Char))[2]? = some (pad4 y) from rfl]
  rw [falsyChars_some _ (pad2_ne_nil d), falsyChars_some _ (pad2_ne_nil m),
    falsyChars_some _ (pad4_ne_nil y)]
  rw [if_neg (by simp)]
  rw [splitChars_renderTime h mi s]
  rw [show ([pad2 h, pad2 mi, pad2 s] : List (List Char))[0]? = some (pad2 h) from rfl,
    show ([pad2 h, pad2 mi, pad2 s] : List (List Char))[1]? = some (pad2 mi) from rfl,
    show ([pad2 h, pad2 mi, pad2 s] : List (List Char))[2]? = some (pad2 s) from rfl]
  rw [jsOrChars_some _ _ (pad2_ne_nil h), jsOrChars_some _ _ (pad2_ne_nil mi),
    jsOrChars_some _ _ (pad2_ne_nil s)]
  rw [show (some (pad4 y)).getD ([] : List Char) = pad4 y from rfl,
    show (some (pad2 m)).getD ([] : List Char) = pad2 m from rfl,
    show (some (pad2 d)).getD ([] : List Char) = pad2 d from rfl]
  rw [jsParseInt_pad4 y, jsParseInt_pad2 m, jsParseInt_pad2 d, jsParseInt_pad2 h,
    jsParseInt_pad2 mi, jsParseInt_pad2 s]
  rfl

theorem jsDateYear_large (y : ℤ) (hy : 100 ≤ y) : jsDateYear y = y := by
  rw [jsDateYear, if_neg]
  rintro ⟨-, h2⟩
  omega

/-- **C5, counterexample.** `"15/03/0024"` is a string of the form
`DD/MM/YYYY`, but the `Date(year, ...)` constructor reads the year
argument 24 as 1924, so the code maps it to 1924-03-15, not to midnight of
year 24. -/
theorem c5_counterexample :
    parseDataSankhya (some "15/03/0024") = some ⟨1924, 2, 15, 0, 0, 0⟩ ∧
    parseDataSankhya (some "15/03/0024") ≠ some ⟨24, 2, 15, 0, 0, 0⟩ := by decide

/-- **C5 (amended).** For every valid calendar date with year 100-9999,
`DD/MM/YYYY` parses to midnight of that date and
`DD/MM/YYYY HH:MM:SS` (in-range time) to that exact date-time (for years
0-99 the `Date` constructor adds 1900, see the counterexample); missing,
empty and malformed inputs such as `"not-a-date"` give `null`, and no
input throws (the model is total). -/
theorem c5_parse_data_sankhya :
    (∀ d m y : ℕ, 1 ≤ d → 1 ≤ m → m ≤ 12 → d ≤ daysInMonth m y →
      100 ≤ y → y ≤ 9999 →
      parseDataSankhya (some (String.mk (renderDate d m y))) =
        some ⟨(y : ℤ), (m : ℤ) - 1, (d : ℤ), 0, 0, 0⟩) ∧
    (∀ d m y h mi s : ℕ, 1 ≤ d → 1 ≤ m → m ≤ 12 → d ≤ daysInMonth m y →
      100 ≤ y → y ≤ 9999 → h ≤ 23 → mi ≤ 59 → s ≤ 59 →
      parseDataSankhya (some (String.mk (renderDateTime d m y h mi s))) =
        some ⟨(y : ℤ), (m : ℤ) - 1, (d : ℤ), (h : ℤ), (mi : ℤ), (s : ℤ)⟩) ∧
    parseDataSankhya none = none ∧
    parseDataSankhya (some "") = none ∧
    parseDataSankhya (some "not-a-date") = none := by
  have hwrap : ∀ cs : List Char, cs ≠ [] →
      parseDataSankhya (some (String.mk cs)) = parseDataChars cs := by
    intro cs hne
    show (if cs.isEmpty = true then none else parseDataChars cs) = parseDataChars cs
    rw [if_neg (by simpa using hne)]
  refine ⟨?_, ?_, rfl, rfl, by decide⟩
  · intro d m y _ _ _ _ hy100 _
    rw [hwrap _ (renderDate_ne_nil d m y), parseDataChars_renderDate d m y]
    show some (⟨jsDateYear (y : ℤ), (m : ℤ) - 1, (d : ℤ), 0, 0, 0⟩ : JSDate) = _
    rw [jsDateYear_large (y : ℤ) (by exact_mod_cast hy100)]
  · intro d m y h mi s _ _ _ _ hy100 _ _ _ _
    rw [hwrap _ (by rw [renderDateTime]; simp [renderDate_ne_nil d m y]),
      parseDataChars_renderDateTime d m y h mi s]
    show some (⟨jsDateYear (y : ℤ), (m : ℤ) - 1, (d : ℤ),
      (h : ℤ), (mi : ℤ), (s : ℤ)⟩ : JSDate) = _
    rw [jsDateYear_large (y : ℤ) (by exact_mod_cast hy100)]

/-- Witness for `c5_parse_data_sankhya` at the spec's own examples. -/
theorem c5_witness :
    String.mk (renderDate 15 3 2024) = "15/03/2024" ∧
    parseDataSankhya (some "15/03/2024") = some ⟨2024, 2, 15, 0, 0, 0⟩ ∧
    String.mk (renderDateTime 15 3 2024 14 30 0) = "15/03/2024 14:30:00" ∧
    parseDataSankhya (some "15/03/2024 14:30:00") = some ⟨2024, 2, 15, 14, 30, 0⟩ := by
  have h1 := c5_parse_data_sankhya.1 15 3 2024 (by decide) (by decide) (by decide)
    (by decide) (by decide) (by decide)
  have h2 := c5_parse_data_sankhya.2.1 15 3 2024 14 30 0 (by decide) (by decide)
    (by decide) (by decide) (by decide) (by decide) (by decide) (by decide) (by decide)
  have e1 : String.mk (renderDate 15 3 2024) = "15/03/2024" := by decide
  have e2 : String.mk (renderDateTime 15 3 2024 14 30 0) = "15/03/2024 14:30:00" := by
    decide
  rw [e1] at h1
  rw [e2] at h2
  exact ⟨e1, h1, e2, h2⟩
